import Mathlib

/-!
# libdns/wedos: the record codec of the WEDOS DNS provider

A shallow embedding of `convert.go` (`normalizeNameFromAPI`, `normalizeNameToAPI`,
`toLibDNSRecord`, `toWedosDNSRecord`), of `request.go` and `response.go`
(`buildRequest`, `doRequest`, `parseResponse`) and of the four operations of
`provider.go`, followed by theorems about them.

Modelling conventions.

* A Go `string` is a `List Char` (`Str`): a sequence of code points. The byte-indexed
  operations the source uses (`s[1:]`, `strings.TrimSuffix`, `strings.Split` on a
  one-byte separator) act on code points here, which is exact whenever the characters
  they touch are ASCII.
* Go `int` and `time.Duration` are 64-bit: they are `Int` here, with `wrap64` applied
  where the source computes something that can overflow. `uint16` is `Nat`, with an
  explicit `% 65536` at the conversion `uint16(x)`.
* A Go function returning `(T, error)` returns an `Outcome T`: `ok`, `error`, or
  `panic` when a run-time index or slice check fails.
* What the source takes from other packages and cannot be written down in a few
  lines (`net/netip`, `strings.ToUpper`, the `RR()` name of a `libdns.SRV`) is a field
  of the parameter `Lib`.
* The HTTP client and the API behind it are a `Transport`: a state machine that answers
  one request at a time. An operation returns a `Run`: its result, the state the API is
  left in and the exchanges it performed.
-/

namespace Wedos

/-- A Go string, as a sequence of code points. -/
abbrev Str := List Char

/-! ## Results of fallible code -/

/-- The errors of the codec and of the operations, by the place that builds them. -/
inductive Err where
  | normalize
  | ttl
  | addr
  | srvFields
  | srvNumber
  | credentials
  | transport
  | envelope
  | unmarshal
  deriving DecidableEq, Repr

/-- Result of a Go function returning `(T, error)` that may also panic. -/
inductive Outcome (α : Type) where
  | ok (a : α)
  | error (e : Err)
  | panic
  deriving DecidableEq, Repr

/-- Sequencing: an error or a panic of the first step ends the computation. -/
def Outcome.bind {α β : Type} (x : Outcome α) (f : α → Outcome β) : Outcome β :=
  match x with
  | .ok a => f a
  | .error e => .error e
  | .panic => .panic

/-! ## The Go library functions used by `convert.go` -/

/-- Go `unicode.IsSpace`: the Latin-1 cases and the `White_Space` table. -/
def isSpace (c : Char) : Bool :=
  let n := c.toNat
  (9 ≤ n && n ≤ 13) || n == 32 || n == 0x85 || n == 0xA0 || n == 0x1680 ||
    (0x2000 ≤ n && n ≤ 0x200a) || n == 0x2028 || n == 0x2029 || n == 0x202f ||
    n == 0x205f || n == 0x3000

/-- Go `strings.TrimSpace`: leading and trailing white space removed. -/
def TrimSpace (s : Str) : Str :=
  (s.dropWhile isSpace).rdropWhile isSpace

/-- Go `strings.TrimSuffix`. -/
def TrimSuffix (s suffix : Str) : Str :=
  if suffix.isSuffixOf s then s.take (s.length - suffix.length) else s

/-- Go `strings.Split(s, sep)` for a separator of one character, which is what both
call sites in `toLibDNSRecord` pass (`"."` and `" "`). -/
def Split (s : Str) (sep : Char) : List Str :=
  match s with
  | [] => [[]]
  | c :: cs =>
    if c = sep then [] :: Split cs sep
    else
      match Split cs sep with
      | [] => [[c]]
      | p :: ps => (c :: p) :: ps

/-- Whether a character is one of `0` .. `9`. -/
def isDigit (c : Char) : Bool := 48 ≤ c.toNat && c.toNat ≤ 57

/-- Value of a run of decimal digits, most significant first. -/
def digitsValue (ds : Str) : Nat :=
  ds.foldl (fun acc c => acc * 10 + (c.toNat - 48)) 0

/-- Go `strconv.Atoi` on a 64-bit platform: an optional sign, then one or more decimal
digits, and a value that fits `int`; `none` stands for a non-nil error (syntax or
range). -/
def Atoi (s : Str) : Option Int :=
  match s with
  | [] => none
  | c :: rest =>
    let neg := c == '-'
    let ds := if c == '-' || c == '+' then rest else c :: rest
    if ds.isEmpty || !ds.all isDigit then none
    else
      let n := digitsValue ds
      if neg then (if n ≤ 2 ^ 63 then some (-(n : Int)) else none)
      else (if n < 2 ^ 63 then some (n : Int) else none)

/-- Decimal digits of a natural number, most significant first; `fuel` bounds the
number of digits. -/
def natDigits : Nat → Nat → Str
  | 0, _ => []
  | fuel + 1, n =>
    if n < 10 then [Char.ofNat (48 + n)]
    else natDigits fuel (n / 10) ++ [Char.ofNat (48 + n % 10)]

/-- Decimal representation of a natural number (`%d` of an unsigned value). -/
def natToString (n : Nat) : Str := natDigits (n + 1) n

/-- Go `strconv.Itoa` (also `%d` of a signed value). -/
def Itoa (i : Int) : Str :=
  if i < 0 then '-' :: natToString i.natAbs else natToString i.natAbs

/-- A Go `int64` computation: the mathematical result reduced to the 64-bit
two's-complement range. -/
def wrap64 (x : Int) : Int := (x + 2 ^ 63) % 2 ^ 64 - 2 ^ 63

/-- Go `uint16(x)` of an `int`: the value modulo 65536. -/
def toUint16 (x : Int) : Nat := (x % 65536).toNat

/-- The constant `time.Second`, in nanoseconds. -/
def Second : Int := 1000000000

/-- The expression `time.Duration(ttlSeconds) * time.Second`. -/
def secondsToDuration (ttlSeconds : Int) : Int := wrap64 (ttlSeconds * Second)

/-- Indexing `xs[i]`, which panics when `i` is out of range. -/
def index {α : Type} (xs : List α) (i : Nat) : Outcome α :=
  match xs.get? i with
  | some x => .ok x
  | none => .panic

/-- Slicing `s[i:]`, which panics when `i` exceeds the length. -/
def sliceFrom (s : Str) (i : Nat) : Outcome Str :=
  if i ≤ s.length then .ok (s.drop i) else .panic

/-- What the codec takes from other packages: `net/netip` (`Addr`, `ParseAddr`,
`Addr.String`, `Addr.Is6`), `strings.ToUpper`, and the name `libdns.SRV.RR()` reports
for a record with the given service, transport and name. -/
structure Lib where
  Addr : Type
  ParseAddr : Str → Option Addr
  addrString : Addr → Str
  Is6 : Addr → Bool
  ToUpper : Str → Str
  srvRRName : Str → Str → Str → Str

/-! ## Data model (`types.go`, `libdns`) -/

/-- The struct `rowItem` of `types.go`: one row of the vendor API. -/
structure rowItem where
  ID : Str
  Name : Str
  TTL : Str
  Rdtype : Str
  Rdata : Str
  ChangedDate : Str
  AuthorComment : Str
  deriving DecidableEq, Repr

/-- The struct `libdns.RR`; `TTL` is a `time.Duration` (nanoseconds). -/
structure RR where
  Name : Str
  TTL : Int
  Rtype : Str
  Data : Str
  deriving DecidableEq, Repr

/-- The implementations of `libdns.Record` that `toWedosDNSRecord` switches on. `TTL`
is a `time.Duration` (nanoseconds), `Preference`, `Priority`, `Weight` and `Port` are
`uint16`. `other` is any further implementation, which the source only reads through
its `RR()`. -/
inductive Record (A : Type) where
  | Address (Name : Str) (IP : A) (TTL : Int)
  | CNAME (Name : Str) (Target : Str) (TTL : Int)
  | TXT (Name : Str) (Text : Str) (TTL : Int)
  | MX (Name : Str) (TTL : Int) (Preference : Nat) (Target : Str)
  | NS (Name : Str) (TTL : Int) (Target : Str)
  | SRV (Service : Str) (Transport : Str) (Name : Str) (TTL : Int)
      (Priority : Nat) (Weight : Nat) (Port : Nat) (Target : Str)
  | RR (rr : RR)
  | other (rr : RR)
  deriving DecidableEq, Repr

/-- The `Name` field of `record.RR()`. -/
def Record.rrName (L : Lib) : Record L.Addr → Str
  | .Address n _ _ => n
  | .CNAME n _ _ => n
  | .TXT n _ _ => n
  | .MX n _ _ _ => n
  | .NS n _ _ => n
  | .SRV s t n _ _ _ _ _ => L.srvRRName s t n
  | .RR rr => rr.Name
  | .other rr => rr.Name

/-- The `TTL` field of a record. -/
def Record.ttl {A : Type} : Record A → Int
  | .Address _ _ t => t
  | .CNAME _ _ t => t
  | .TXT _ _ t => t
  | .MX _ t _ _ => t
  | .NS _ t _ => t
  | .SRV _ _ _ t _ _ _ _ => t
  | .RR rr => rr.TTL
  | .other rr => rr.TTL

/-- The map `toWedosDNSRecord` returns: it always has exactly these five keys. -/
structure WedosRecord where
  domain : Str
  name : Str
  ttl : Str
  type : Str
  rdata : Str
  deriving DecidableEq, Repr

/-! ## `convert.go` -/

def ARecord : Str := "A".toList
def AAAARecord : Str := "AAAA".toList
def CNAMERecord : Str := "CNAME".toList
def MXRecord : Str := "MX".toList
def TXTRecord : Str := "TXT".toList
def SRVRecord : Str := "SRV".toList
def NSRecord : Str := "NS".toList

/-- `normalizeNameFromAPI`: the provider's name as a libdns name. -/
def normalizeNameFromAPI (apiName : Str) : Outcome Str :=
  let apiName := TrimSpace apiName
  if apiName = [] then .ok "@".toList else .ok apiName

/-- `normalizeNameToAPI`: a libdns name as the provider's name. -/
def normalizeNameToAPI (apiName : Str) : Outcome Str :=
  let apiName := TrimSpace apiName
  if apiName = "@".toList then .ok [] else .ok apiName

/-- The SRV case of `toLibDNSRecord` (lines 92-129). -/
def srvCase (L : Lib) (row : rowItem) (ttlSeconds : Int) : Outcome (Record L.Addr) :=
  let service := Split row.Name '.'
  (index service 0).bind fun s0 =>
  (sliceFrom s0 1).bind fun serviceName =>
  (index service 1).bind fun s1 =>
  (sliceFrom s1 1).bind fun serviceProtocol =>
  (index service 2).bind fun serviceSubdomain =>
  let parts := Split row.Rdata ' '
  if parts.length ≠ 4 then .error .srvFields
  else
    (index parts 0).bind fun p0 =>
    match Atoi p0 with
    | none => .error .srvNumber
    | some priority =>
      (index parts 1).bind fun p1 =>
      match Atoi p1 with
      | none => .error .srvNumber
      | some weight =>
        (index parts 2).bind fun p2 =>
        match Atoi p2 with
        | none => .error .srvNumber
        | some port =>
          (index parts 3).bind fun hostname =>
          .ok (.SRV serviceName serviceProtocol serviceSubdomain
            (secondsToDuration ttlSeconds)
            (toUint16 priority) (toUint16 weight) (toUint16 port) hostname)

/-- The value switched on in `toLibDNSRecord`:
`strings.ToUpper(strings.TrimSpace(row.Rdtype))`. -/
def recordType (L : Lib) (row : rowItem) : Str := L.ToUpper (TrimSpace row.Rdtype)

/-- `toLibDNSRecord`: a row of the API as a libdns record. -/
def toLibDNSRecord (L : Lib) (row : rowItem) : Outcome (Record L.Addr) :=
  let recordType := recordType L row
  match Atoi row.TTL with
  | none => .error .ttl
  | some ttlSeconds =>
    (normalizeNameFromAPI row.Name).bind fun name =>
    if recordType = ARecord ∨ recordType = AAAARecord then
      match L.ParseAddr (TrimSpace row.Rdata) with
      | none => .error .addr
      | some ip => .ok (.Address name ip (secondsToDuration ttlSeconds))
    else if recordType = CNAMERecord then
      .ok (.CNAME name (TrimSpace row.Rdata) (secondsToDuration ttlSeconds))
    else if recordType = TXTRecord then
      .ok (.TXT name row.Rdata (secondsToDuration ttlSeconds))
    else if recordType = SRVRecord then
      srvCase L row ttlSeconds
    else
      .ok (.RR ⟨name, secondsToDuration ttlSeconds, row.Rdtype, row.Rdata⟩)

/-- `toWedosDNSRecord`: a libdns record as the fields of an API row. -/
def toWedosDNSRecord (L : Lib) (record : Record L.Addr) (zone : Str) : Outcome WedosRecord :=
  let zone := TrimSuffix zone ".".toList
  match normalizeNameToAPI (record.rrName L) with
  | .error _ => .error .normalize
  | .panic => .panic
  | .ok name =>
    match record with
    | .Address _ ip ttl =>
      let recordType := if L.Is6 ip then AAAARecord else ARecord
      .ok ⟨zone, name, Itoa ttl, recordType, L.addrString ip⟩
    | .CNAME _ target ttl => .ok ⟨zone, name, Itoa ttl, CNAMERecord, target⟩
    | .TXT _ text ttl => .ok ⟨zone, name, Itoa ttl, TXTRecord, text⟩
    | .MX _ ttl preference target =>
      .ok ⟨zone, name, Itoa ttl, MXRecord, natToString preference ++ " ".toList ++ target⟩
    | .NS _ ttl target => .ok ⟨zone, name, Itoa ttl, NSRecord, target⟩
    | .SRV _ _ _ ttl priority weight port target =>
      .ok ⟨zone, name, Itoa ttl, SRVRecord,
        natToString priority ++ " ".toList ++ natToString weight ++ " ".toList ++
          natToString port ++ " ".toList ++ target⟩
    | .RR r => .ok ⟨zone, name, Itoa r.TTL, r.Rtype, r.Data⟩
    | .other rr => .ok ⟨zone, name, Itoa rr.TTL, rr.Rtype, rr.Data⟩

/-! ## `provider.go`: the row loop of `GetRecords` -/

/-- Lines 57-67 of `Provider.GetRecords`: the fetched rows are decoded in order and the
first row that fails ends the listing. -/
def decodeRows (L : Lib) : List rowItem → Outcome (List (Record L.Addr))
  | [] => .ok []
  | row :: rest =>
    (toLibDNSRecord L row).bind fun record =>
    (decodeRows L rest).bind fun records =>
    .ok (record :: records)

/-! ## A concrete library, for evaluating the codec on examples

IPv4 addresses in dotted-quad form as `net/netip` reads and prints them, and
`strings.ToUpper` on ASCII text. -/

/-- Parse one field of a dotted quad: one to three digits, no leading zero, at most
255. -/
def parseOctet (s : Str) : Option Nat :=
  if s.isEmpty || !s.all isDigit || 3 < s.length then none
  else if 1 < s.length && s.head? == some '0' then none
  else if 255 < digitsValue s then none
  else some (digitsValue s)

/-- `netip.ParseAddr` on dotted-quad IPv4 text. -/
def parseIPv4 (s : Str) : Option (Nat × Nat × Nat × Nat) :=
  match Split s '.' with
  | [a, b, c, d] =>
    match parseOctet a, parseOctet b, parseOctet c, parseOctet d with
    | some a, some b, some c, some d => some (a, b, c, d)
    | _, _, _, _ => none
  | _ => none

/-- `Addr.String` of an IPv4 address. -/
def ipv4String (a : Nat × Nat × Nat × Nat) : Str :=
  natToString a.1 ++ ".".toList ++ natToString a.2.1 ++ ".".toList ++
    natToString a.2.2.1 ++ ".".toList ++ natToString a.2.2.2

/-- The library restricted to IPv4 addresses and ASCII type tags, with the SRV name
`_service._transport.name`. -/
def ipv4Lib : Lib where
  Addr := Nat × Nat × Nat × Nat
  ParseAddr := parseIPv4
  addrString := ipv4String
  Is6 := fun _ => false
  ToUpper := fun s => s.map Char.toUpper
  srvRRName := fun s t n => "_".toList ++ s ++ "._".toList ++ t ++ ".".toList ++ n

instance : DecidableEq ipv4Lib.Addr := inferInstanceAs (DecidableEq (Nat × Nat × Nat × Nat))

/-! ## Notions used to state the properties -/

/-- The zone with one trailing dot removed, when it ends in a dot. -/
def stripOneTrailingDot (zone : Str) : Str :=
  if zone.getLast? = some '.' then zone.dropLast else zone

/-- The type tag and the data the specification gives for each variant; a record of a
further variant is read through its `RR()`, as a generic one is. -/
def variantTypeData (L : Lib) : Record L.Addr → Str × Str
  | .Address _ ip _ => (if L.Is6 ip = true then "AAAA".toList else "A".toList, L.addrString ip)
  | .CNAME _ target _ => ("CNAME".toList, target)
  | .TXT _ text _ => ("TXT".toList, text)
  | .MX _ _ preference target => ("MX".toList, natToString preference ++ ' ' :: target)
  | .NS _ _ target => ("NS".toList, target)
  | .SRV _ _ _ _ priority weight port target =>
    ("SRV".toList,
      natToString priority ++ ' ' ::
        (natToString weight ++ ' ' :: (natToString port ++ ' ' :: target)))
  | .RR rr => (rr.Rtype, rr.Data)
  | .other rr => (rr.Rtype, rr.Data)

/-- A duration of `s` whole seconds, as a `time.Duration`. -/
def seconds (s : Int) : Int := s * Second

/-- A token that is a decimal integer in `0 .. 65535`: one or more digits, of that
value. -/
def isDecimalUint16 (tok : Str) : Bool :=
  !tok.isEmpty && tok.all isDigit && decide (digitsValue tok ≤ 65535)

/-- A token that is a decimal integer: an optional sign, then one or more digits. -/
def isDecimalInteger (tok : Str) : Bool :=
  match tok with
  | [] => false
  | c :: rest =>
    let ds := if c = '-' ∨ c = '+' then rest else c :: rest
    !ds.isEmpty && ds.all isDigit

/-- Priority, weight and port of a service-locator record. -/
def Record.srvNumbers {A : Type} : Record A → Option (Nat × Nat × Nat)
  | .SRV _ _ _ _ priority weight port _ => some (priority, weight, port)
  | _ => none

/-- The type tags with a case of their own in `toLibDNSRecord`. -/
def decodedTypes : List Str := [ARecord, AAAARecord, CNAMERecord, TXTRecord, SRVRecord]

/-- The record with its `TTL` field replaced. -/
def Record.setTTL {A : Type} (t : Int) : Record A → Record A
  | .Address n ip _ => .Address n ip t
  | .CNAME n target _ => .CNAME n target t
  | .TXT n text _ => .TXT n text t
  | .MX n _ preference target => .MX n t preference target
  | .NS n _ target => .NS n t target
  | .SRV s p n _ priority weight port target => .SRV s p n t priority weight port target
  | .RR rr => .RR { rr with TTL := t }
  | .other rr => .other { rr with TTL := t }

/-- The form in which a record comes back from the API: `toLibDNSRecord` has no case
for MX and NS, so these come back as generic records carrying the emitted type tag
and data; the other variants come back as themselves. -/
def decodedForm {A : Type} : Record A → Record A
  | .MX n t preference target => .RR ⟨n, t, MXRecord, natToString preference ++ ' ' :: target⟩
  | .NS n t target => .RR ⟨n, t, NSRecord, target⟩
  | r => r

/-- A name the codec leaves alone: no white space at either end and not empty (the
apex is written `@`). -/
def CleanName (n : Str) : Prop := TrimSpace n = n ∧ n ≠ []

/-- A value of Go's `int64`. -/
def IsInt64 (t : Int) : Prop := -2 ^ 63 ≤ t ∧ t < 2 ^ 63

/-- The records of the six modelled variants whose content the row format can carry:
clean names, a CNAME target without white space at its ends, an address whose text
parses back to it, and for SRV the name `_service._transport.name` with no dot inside
the three components, no white space at the end of the name, 16-bit numbers and a
target without a space. -/
def RoundTripReady (L : Lib) : Record L.Addr → Prop
  | .Address n ip t =>
    CleanName n ∧ IsInt64 t ∧ L.ParseAddr (TrimSpace (L.addrString ip)) = some ip
  | .CNAME n target t => CleanName n ∧ IsInt64 t ∧ TrimSpace target = target
  | .TXT n _ t => CleanName n ∧ IsInt64 t
  | .MX n t _ _ => CleanName n ∧ IsInt64 t
  | .NS n t _ => CleanName n ∧ IsInt64 t
  | .SRV s p n t priority weight port target =>
    IsInt64 t ∧
      L.srvRRName s p n = "_".toList ++ s ++ "._".toList ++ p ++ ".".toList ++ n ∧
      '.' ∉ s ∧ '.' ∉ p ∧ '.' ∉ n ∧ n.rdropWhile isSpace = n ∧
      priority ≤ 65535 ∧ weight ≤ 65535 ∧ port ≤ 65535 ∧ ' ' ∉ target
  | .RR _ => False
  | .other _ => False

/-- The type tags `toWedosDNSRecord` emits for the six modelled variants. -/
def emittedTypes : List Str :=
  [ARecord, AAAARecord, CNAMERecord, TXTRecord, MXRecord, NSRecord, SRVRecord]

/-! ## `types.go`, `request.go`, `response.go`: requests, responses, the transport -/

/-- The constant `OK` of `response.go`. -/
def OK : Int := 1000

/-- The command name `GetRecords` of `provider.go`. -/
def Command.GetRecords : Str := "dns-rows-list".toList

/-- The command name `AppendRecords` of `provider.go`. -/
def Command.AppendRecords : Str := "dns-row-add".toList

/-- The command name `DeleteRecords` of `provider.go`. -/
def Command.DeleteRecords : Str := "dns-row-delete".toList

/-- The command name `UpdateRecords` of `provider.go`. -/
def Command.UpdateRecords : Str := "dns-row-update".toList

/-- The struct `Provider`; its `httpClient` is the `Transport` below. -/
structure Provider where
  Username : Str
  Password : Str
  deriving DecidableEq, Repr

/-- The payloads the operations build, each a `map[string]string` with a fixed set of
keys: `{domain}` for a listing, the five fields of `toWedosDNSRecord` for a create,
`{domain, row_id, ttl, rdata}` for an update, `{domain, row_id}` for a delete. -/
inductive Payload where
  | domain (domain : Str)
  | record (fields : WedosRecord)
  | update (domain : Str) (row_id : Str) (ttl : Str) (rdata : Str)
  | delete (domain : Str) (row_id : Str)
  deriving DecidableEq, Repr

/-- The struct `request` of `types.go`, without `Auth` (a hash of the user, the password
and the hour of the day) and `Test` (never set). -/
structure request where
  User : Str
  Command : Str
  ClTRID : Str
  Data : Payload
  deriving DecidableEq, Repr

/-- A `json.RawMessage`, seen through the `json.Unmarshal` its reader performs on it:
either that fails, or it succeeds and the `row` array of a `dnsRowsListResponse` holds
the given rows. -/
inductive RawMessage where
  | invalid
  | valid (row : List rowItem)
  deriving DecidableEq, Repr

/-- The struct `response` of `types.go`: the status code and the data, `none` for a nil
`Data`. -/
structure response where
  Code : Int
  Data : Option RawMessage
  deriving DecidableEq, Repr

/-- What `client.Do` returns: an error, or a response whose body decodes to an
envelope (`some`) or does not decode (`none`). -/
inductive HttpResult where
  | failed
  | body (envelope : Option response)
  deriving DecidableEq, Repr

/-- The HTTP client and the remote API behind it: a state machine answering one request
at a time. -/
structure Transport (σ : Type) where
  Do : σ → request → HttpResult × σ

/-- One call of `client.Do`: the request sent and what came back. -/
abbrev Exchange := request × HttpResult

/-- The run of a piece of a provider operation: its result, the state the API is left
in, and the exchanges it performed, oldest first. -/
structure Run (σ α : Type) where
  result : Outcome α
  state : σ
  trace : List Exchange
  deriving DecidableEq, Repr

/-- `buildRequest`: fails when the user name or the password is empty. -/
def buildRequest (p : Provider) (command clTRID : Str) (payload : Payload) : Outcome request :=
  if p.Username = [] ∨ p.Password = [] then .error .credentials
  else .ok ⟨p.Username, command, clTRID, payload⟩

/-- `doRequest`: one call of `client.Do`. -/
def doRequest {σ : Type} (T : Transport σ) (s : σ) (req : request) : Run σ (Option response) :=
  match T.Do s req with
  | (.failed, s') => ⟨.error .transport, s', [(req, .failed)]⟩
  | (.body b, s') => ⟨.ok b, s', [(req, .body b)]⟩

/-- `parseResponse`: the envelope is decoded; its data is unmarshalled only when the code
is `OK`, the data is not nil and `into` is not nil. Returned with the envelope: the rows
now held by `into` (none unless data was unmarshalled). -/
def parseResponse (body : Option response) (into : Bool) : Outcome (response × List rowItem) :=
  match body with
  | none => .error .envelope
  | some env =>
    match env.Data with
    | none => .ok (env, [])
    | some data =>
      if env.Code = OK ∧ into = true then
        match data with
        | .valid row => .ok (env, row)
        | .invalid => .error .unmarshal
      else .ok (env, [])

/-- The three calls every operation makes in a row: `buildRequest`, `doRequest`,
`parseResponse`, each ending the sequence when it returns an error. -/
def roundTrip {σ : Type} (T : Transport σ) (p : Provider) (s : σ) (command clTRID : Str)
    (payload : Payload) (into : Bool) : Run σ (response × List rowItem) :=
  match buildRequest p command clTRID payload with
  | .error e => ⟨.error e, s, []⟩
  | .panic => ⟨.panic, s, []⟩
  | .ok req =>
    let sent := doRequest T s req
    match sent.result with
    | .error e => ⟨.error e, sent.state, sent.trace⟩
    | .panic => ⟨.panic, sent.state, sent.trace⟩
    | .ok body => ⟨parseResponse body into, sent.state, sent.trace⟩

/-! ## `provider.go`: the four operations -/

/-- The struct `recordKey` of `types.go`. -/
structure recordKey where
  Name : Str
  Rtype : Str
  Data : Str
  deriving DecidableEq, Repr

/-- `Provider.GetRecords`. -/
def Provider.GetRecords {σ : Type} (L : Lib) (T : Transport σ) (p : Provider) (s : σ)
    (zone : Str) : Run σ (List (Record L.Addr)) :=
  let fetched := roundTrip T p s Command.GetRecords "GetRecords".toList (.domain zone) true
  match fetched.result with
  | .error e => ⟨.error e, fetched.state, fetched.trace⟩
  | .panic => ⟨.panic, fetched.state, fetched.trace⟩
  | .ok (_, row) => ⟨decodeRows L row, fetched.state, fetched.trace⟩

/-- The loop of `Provider.AppendRecords` over the records still to add, with the
records added so far. -/
def appendLoop {σ : Type} (L : Lib) (T : Transport σ) (p : Provider) (zone : Str) :
    List (Record L.Addr) → List (Record L.Addr) → σ → Run σ (List (Record L.Addr))
  | [], addedRecords, s => ⟨.ok addedRecords, s, []⟩
  | record :: rest, addedRecords, s =>
    match toWedosDNSRecord L record zone with
    | .error e => ⟨.error e, s, []⟩
    | .panic => ⟨.panic, s, []⟩
    | .ok payload =>
      let sent := roundTrip T p s Command.AppendRecords "AppendRecords".toList
        (.record payload) true
      match sent.result with
      | .error e => ⟨.error e, sent.state, sent.trace⟩
      | .panic => ⟨.panic, sent.state, sent.trace⟩
      | .ok (envelope, _) =>
        let next := appendLoop L T p zone rest
          (if envelope.Code = 1000 then addedRecords ++ [record] else addedRecords) sent.state
        ⟨next.result, next.state, sent.trace ++ next.trace⟩

/-- `Provider.AppendRecords`. -/
def Provider.AppendRecords {σ : Type} (L : Lib) (T : Transport σ) (p : Provider) (s : σ)
    (zone : Str) (records : List (Record L.Addr)) : Run σ (List (Record L.Addr)) :=
  appendLoop L T p zone records [] s

/-- The map `remoteMap` of `Provider.SetRecords`, as the list of its insertions, most
recent first: a later row with the same name and type replaces an earlier one. -/
def remoteMap (row : List rowItem) : List (recordKey × rowItem) :=
  (row.map fun remoteRecord =>
    ((⟨remoteRecord.Name, remoteRecord.Rdtype, []⟩ : recordKey), remoteRecord)).reverse

/-- The loop of `Provider.SetRecords` over the records still to set, with the records
updated so far. -/
def setLoop {σ : Type} (L : Lib) (T : Transport σ) (p : Provider) (zone : Str)
    (remoteMap : List (recordKey × rowItem)) :
    List (Record L.Addr) → List (Record L.Addr) → σ → Run σ (List (Record L.Addr))
  | [], updatedRecords, s => ⟨.ok updatedRecords, s, []⟩
  | recordToSet :: rest, updatedRecords, s =>
    match toWedosDNSRecord L recordToSet zone with
    | .error e => ⟨.error e, s, []⟩
    | .panic => ⟨.panic, s, []⟩
    | .ok wedosRecordToSet =>
      let recordToSetKey : recordKey := ⟨wedosRecordToSet.name, wedosRecordToSet.type, []⟩
      match remoteMap.lookup recordToSetKey with
      | none =>
        let sent := roundTrip T p s Command.AppendRecords "AppendRecords".toList
          (.record wedosRecordToSet) true
        match sent.result with
        | .error e => ⟨.error e, sent.state, sent.trace⟩
        | .panic => ⟨.panic, sent.state, sent.trace⟩
        | .ok (envelope, _) =>
          let next := setLoop L T p zone remoteMap rest
            (if envelope.Code = 1000 then updatedRecords ++ [recordToSet] else updatedRecords)
            sent.state
          ⟨next.result, next.state, sent.trace ++ next.trace⟩
      | some remote =>
        let sent := roundTrip T p s Command.UpdateRecords "UpdateRecords".toList
          (.update zone remote.ID wedosRecordToSet.ttl wedosRecordToSet.rdata) false
        match sent.result with
        | .error e => ⟨.error e, sent.state, sent.trace⟩
        | .panic => ⟨.panic, sent.state, sent.trace⟩
        | .ok _ =>
          let next := setLoop L T p zone remoteMap rest (updatedRecords ++ [recordToSet])
            sent.state
          ⟨next.result, next.state, sent.trace ++ next.trace⟩

/-- `Provider.SetRecords`. -/
def Provider.SetRecords {σ : Type} (L : Lib) (T : Transport σ) (p : Provider) (s : σ)
    (zone : Str) (records : List (Record L.Addr)) : Run σ (List (Record L.Addr)) :=
  let fetched := roundTrip T p s Command.GetRecords "GetRecords".toList (.domain zone) true
  match fetched.result with
  | .error e => ⟨.error e, fetched.state, fetched.trace⟩
  | .panic => ⟨.panic, fetched.state, fetched.trace⟩
  | .ok (_, row) =>
    let next := setLoop L T p zone (remoteMap row) records [] fetched.state
    ⟨next.result, next.state, fetched.trace ++ next.trace⟩

/-- The first loop of `Provider.DeleteRecords`: the map `wanted`, as the list of its
insertions, most recent first. -/
def wantedMap (L : Lib) (zone : Str) :
    List (Record L.Addr) → List (recordKey × Record L.Addr) →
      Outcome (List (recordKey × Record L.Addr))
  | [], wanted => .ok wanted
  | rec :: rest, wanted =>
    match toWedosDNSRecord L rec zone with
    | .error e => .error e
    | .panic => .panic
    | .ok wedosRec =>
      wantedMap L zone rest ((⟨wedosRec.name, wedosRec.type, wedosRec.rdata⟩, rec) :: wanted)

/-- The second loop of `Provider.DeleteRecords`, over the remote rows still to scan;
`delete(wanted, key)` removes every insertion under the key. -/
def deleteLoop {σ : Type} (L : Lib) (T : Transport σ) (p : Provider) (zone : Str) :
    List rowItem → List (recordKey × Record L.Addr) → List (Record L.Addr) → σ →
      Run σ (List (Record L.Addr))
  | [], _, deletedRecords, s => ⟨.ok deletedRecords, s, []⟩
  | row :: rest, wanted, deletedRecords, s =>
    let key : recordKey := ⟨row.Name, row.Rdtype, row.Rdata⟩
    match wanted.lookup key with
    | none => deleteLoop L T p zone rest wanted deletedRecords s
    | some rec =>
      let sent := roundTrip T p s Command.DeleteRecords "DeleteRecords".toList
        (.delete zone row.ID) true
      match sent.result with
      | .error e => ⟨.error e, sent.state, sent.trace⟩
      | .panic => ⟨.panic, sent.state, sent.trace⟩
      | .ok _ =>
        let next := deleteLoop L T p zone rest (wanted.filter fun kv => kv.1 ≠ key)
          (deletedRecords ++ [rec]) sent.state
        ⟨next.result, next.state, sent.trace ++ next.trace⟩

/-- `Provider.DeleteRecords`. -/
def Provider.DeleteRecords {σ : Type} (L : Lib) (T : Transport σ) (p : Provider) (s : σ)
    (zone : Str) (records : List (Record L.Addr)) : Run σ (List (Record L.Addr)) :=
  let fetched := roundTrip T p s Command.GetRecords "GetRecords".toList (.domain zone) true
  match fetched.result with
  | .error e => ⟨.error e, fetched.state, fetched.trace⟩
  | .panic => ⟨.panic, fetched.state, fetched.trace⟩
  | .ok (_, row) =>
    match wantedMap L zone records [] with
    | .error e => ⟨.error e, fetched.state, fetched.trace⟩
    | .panic => ⟨.panic, fetched.state, fetched.trace⟩
    | .ok wanted =>
      let next := deleteLoop L T p zone row wanted [] fetched.state
      ⟨next.result, next.state, fetched.trace ++ next.trace⟩

/-! ## Concrete transports, for evaluating the operations on examples -/

/-- A transport that answers the calls with a prepared list of results, in order, and
fails once the list is used up. -/
def scripted : Transport (List HttpResult) where
  Do := fun s _ =>
    match s with
    | [] => (.failed, [])
    | r :: rest => (r, rest)

/-- An in-memory zone: the rows it holds and the number the next row id is made of. It
accepts every call; a create stores a row with the name, ttl, type and data sent, an
update replaces the ttl and the data of the row with the given id, a delete removes
that row. -/
def memoryZone : Transport (List rowItem × Nat) where
  Do := fun s req =>
    match req.Data with
    | .domain _ => (.body (some ⟨OK, some (.valid s.1)⟩), s)
    | .record w =>
      (.body (some ⟨OK, some (.valid [])⟩),
        (s.1 ++ [⟨natToString s.2, w.name, w.ttl, w.type, w.rdata, [], []⟩], s.2 + 1))
    | .update _ row_id ttl rdata =>
      (.body (some ⟨OK, none⟩),
        (s.1.map fun r => if r.ID = row_id then { r with TTL := ttl, Rdata := rdata } else r,
          s.2))
    | .delete _ row_id => (.body (some ⟨OK, none⟩), (s.1.filter fun r => r.ID ≠ row_id, s.2))

/-- The in-memory zone behind an API that answers its first list-rows call and rejects
every later one with code 2000; the flag tells whether a listing was already answered.
All other calls go to `memoryZone`. -/
def flakyZone : Transport ((List rowItem × Nat) × Bool) where
  Do := fun s req =>
    match req.Data with
    | .domain _ =>
      if s.2 then (.body (some ⟨2000, none⟩), s)
      else (.body (some ⟨OK, some (.valid s.1.1)⟩), (s.1, true))
    | _ => ((memoryZone.Do s.1 req).1, ((memoryZone.Do s.1 req).2, s.2))

/-- The library of `ipv4Lib` with one more address: `none` is the zero `netip.Addr`,
which is not an IPv6 address, prints as `invalid IP` and is the result of no parse. -/
def ipv4ZeroLib : Lib where
  Addr := Option (Nat × Nat × Nat × Nat)
  ParseAddr := fun s => (parseIPv4 s).map some
  addrString := fun a =>
    match a with
    | none => "invalid IP".toList
    | some q => ipv4String q
  Is6 := fun _ => false
  ToUpper := fun s => s.map Char.toUpper
  srvRRName := fun s t n => "_".toList ++ s ++ "._".toList ++ t ++ ".".toList ++ n

instance : DecidableEq ipv4ZeroLib.Addr :=
  inferInstanceAs (DecidableEq (Option (Nat × Nat × Nat × Nat)))

/-! ## Notions used to state the properties of the operations -/

/-- The fields `toWedosDNSRecord` returns for a record, written out. -/
def encoded (L : Lib) (r : Record L.Addr) (zone : Str) : WedosRecord :=
  ⟨stripOneTrailingDot zone,
    if TrimSpace (r.rrName L) = "@".toList then [] else TrimSpace (r.rrName L),
    Itoa r.ttl, (variantTypeData L r).1, (variantTypeData L r).2⟩

/-- The list-rows request for a zone. -/
def listRequest (p : Provider) (zone : Str) : request :=
  ⟨p.Username, Command.GetRecords, "GetRecords".toList, .domain zone⟩

/-- The create request carrying an encoded record. -/
def createRequest (L : Lib) (p : Provider) (zone : Str) (r : Record L.Addr) : request :=
  ⟨p.Username, Command.AppendRecords, "AppendRecords".toList, .record (encoded L r zone)⟩

/-- The update request for a row id, with a new ttl and new data. -/
def updateRequest (p : Provider) (zone row_id ttl rdata : Str) : request :=
  ⟨p.Username, Command.UpdateRecords, "UpdateRecords".toList, .update zone row_id ttl rdata⟩

/-- The delete request for a row. -/
def deleteRequest (p : Provider) (zone : Str) (row : rowItem) : request :=
  ⟨p.Username, Command.DeleteRecords, "DeleteRecords".toList, .delete zone row.ID⟩

/-- Whether the response to a request is parsed into a target: every operation passes
one, except for an update, where `into` is nil. -/
def readsData (req : request) : Bool :=
  match req.Data with
  | .update _ _ _ _ => false
  | _ => true

/-- What `doRequest` followed by `parseResponse` make of the result of `client.Do`. -/
def replyOutcome (res : HttpResult) (into : Bool) : Outcome (response × List rowItem) :=
  match res with
  | .failed => .error .transport
  | .body b => parseResponse b into

/-- An exchange without transport error: `client.Do` returned a response and
`parseResponse` returned no error. -/
def noError (ex : Exchange) : Bool :=
  match replyOutcome ex.2 (readsData ex.1) with
  | .ok _ => true
  | _ => false

/-- The status code of a response, if there is a decodable one. -/
def replyCode (res : HttpResult) : Option Int :=
  match res with
  | .body (some env) => some env.Code
  | _ => none

/-- The rows a list-rows call yields: those `parseResponse` unmarshals, none when it
unmarshals nothing or fails. -/
def replyRows (res : HttpResult) : List rowItem :=
  match replyOutcome res true with
  | .ok (_, row) => row
  | _ => []

/-- The snapshot row occupying a name and type: the last row of the snapshot with
exactly that name and that type, if there is one. -/
def occupant (rows : List rowItem) (name type : Str) : Option rowItem :=
  (rows.filter fun row => row.Name = name ∧ row.Rdtype = type).getLast?

/-- The one mutating request the Set decision rule prescribes for a record, given the
snapshot: an update of the occupant of its encoded name and type when there is one, a
create otherwise. -/
def setRequest (L : Lib) (p : Provider) (zone : Str) (rows : List rowItem)
    (r : Record L.Addr) : request :=
  match occupant rows (encoded L r zone).name (encoded L r zone).type with
  | some row => updateRequest p zone row.ID (encoded L r zone).ttl (encoded L r zone).rdata
  | none => createRequest L p zone r

/-- The exact (name, type, data) triple of a remote row. -/
def tripleOf (row : rowItem) : recordKey := ⟨row.Name, row.Rdtype, row.Rdata⟩

/-- The encoded (name, type, data) triple of a desired record. -/
def encodedTriple (L : Lib) (zone : Str) (r : Record L.Addr) : recordKey :=
  ⟨(encoded L r zone).name, (encoded L r zone).type, (encoded L r zone).rdata⟩

/-- The rows that are the first, in the given order, with their exact triple, among
the rows whose triple is one of `keys`; `earlier` holds the rows already passed. -/
def firstMatching (keys : List recordKey) : List rowItem → List rowItem → List rowItem
  | _, [] => []
  | earlier, row :: rest =>
    if tripleOf row ∈ keys ∧ ∀ e ∈ earlier, tripleOf e ≠ tripleOf row then
      row :: firstMatching keys (earlier ++ [row]) rest
    else firstMatching keys (earlier ++ [row]) rest

/-- A remote store that also answers its listings, with `rows` the rows it holds: a
listing that returns without error yields exactly those rows, so a listing is never
answered with a rejection while rows are stored; a create answered with code 1000
leaves a row with the name, type and data sent; and no call other than a delete removes
a row or changes its name or type. -/
structure IsStore {σ : Type} (T : Transport σ) (rows : σ → List rowItem) : Prop where
  list : ∀ s req zone v, req.Data = .domain zone →
    replyOutcome (T.Do s req).1 true = .ok v → v.2 = rows s
  create : ∀ s req w, req.Data = .record w → replyCode (T.Do s req).1 = some 1000 →
    ∃ row ∈ rows (T.Do s req).2, row.Name = w.name ∧ row.Rdtype = w.type ∧ row.Rdata = w.rdata
  keep : ∀ s req, (∀ zone row_id, req.Data ≠ .delete zone row_id) →
    ∀ row ∈ rows s, ∃ kept ∈ rows (T.Do s req).2,
      kept.Name = row.Name ∧ kept.Rdtype = row.Rdtype

/-- The Address, CNAME and TXT records whose content the row format carries: a clean
name, for CNAME a target without white space at its ends, for Address an address whose
text parses back to it. -/
def ContentReady (L : Lib) : Record L.Addr → Prop
  | .Address n ip _ => CleanName n ∧ L.ParseAddr (TrimSpace (L.addrString ip)) = some ip
  | .CNAME n target _ => CleanName n ∧ TrimSpace target = target
  | .TXT n _ _ => CleanName n
  | _ => False

/-! ## Lemmas on the library functions -/

theorem digitChar_toNat (d : Nat) (h : d < 10) : (Char.ofNat (48 + d)).toNat = 48 + d := by
  interval_cases d <;> rfl

theorem digitChar_isDigit (d : Nat) (h : d < 10) : isDigit (Char.ofNat (48 + d)) = true := by
  interval_cases d <;> rfl

theorem digitsValue_snoc (xs : Str) (c : Char) :
    digitsValue (xs ++ [c]) = digitsValue xs * 10 + (c.toNat - 48) := by
  simp [digitsValue, List.foldl_append]

theorem natDigits_value (fuel n : Nat) (h : n < fuel) : digitsValue (natDigits fuel n) = n := by
  induction fuel generalizing n with
  | zero => omega
  | succ f ih =>
    unfold natDigits
    split
    · rename_i hlt
      simp [digitsValue, digitChar_toNat n hlt]
    · rename_i hge
      rw [digitsValue_snoc, ih (n / 10) (by omega), digitChar_toNat _ (Nat.mod_lt _ (by omega))]
      omega

theorem natDigits_all (fuel n : Nat) : (natDigits fuel n).all isDigit = true := by
  induction fuel generalizing n with
  | zero => simp [natDigits]
  | succ f ih =>
    unfold natDigits
    split
    · rename_i hlt
      simp [digitChar_isDigit n hlt]
    · rw [List.all_append, ih]
      simp [digitChar_isDigit _ (Nat.mod_lt n (by omega : 0 < 10))]

theorem natDigits_ne_nil (fuel n : Nat) (h : n < fuel) : natDigits fuel n ≠ [] := by
  cases fuel with
  | zero => omega
  | succ f =>
    unfold natDigits
    split <;> simp

theorem natToString_value (n : Nat) : digitsValue (natToString n) = n :=
  natDigits_value (n + 1) n (by omega)

theorem natToString_all (n : Nat) : (natToString n).all isDigit = true :=
  natDigits_all (n + 1) n

theorem natToString_ne_nil (n : Nat) : natToString n ≠ [] :=
  natDigits_ne_nil (n + 1) n (by omega)

/-- `Atoi` on a non-empty run of digits whose value fits the `int` range. -/
theorem Atoi_digits (ds : Str) (hne : ds ≠ []) (hall : ds.all isDigit = true)
    (hv : digitsValue ds < 2 ^ 63) : Atoi ds = some (digitsValue ds : Int) := by
  cases ds with
  | nil => exact absurd rfl hne
  | cons c cs =>
    have hc : isDigit c = true := by
      simp only [List.all_cons, Bool.and_eq_true] at hall
      exact hall.1
    have h1 : (c == '-') = false := by
      rw [beq_eq_false_iff_ne]
      rintro rfl
      revert hc; decide
    have h2 : (c == '+') = false := by
      rw [beq_eq_false_iff_ne]
      rintro rfl
      revert hc; decide
    simp only [Atoi, h1, h2, Bool.or_self, Bool.false_eq_true, if_false, hall, List.isEmpty_cons,
      Bool.not_true, hv, if_true]

theorem Atoi_natToString (n : Nat) (h : n < 2 ^ 63) : Atoi (natToString n) = some (n : Int) := by
  have := Atoi_digits (natToString n) (natToString_ne_nil n) (natToString_all n)
    (by rw [natToString_value]; exact h)
  rwa [natToString_value] at this

theorem Split_ne_nil (s : Str) (sep : Char) : Split s sep ≠ [] := by
  cases s with
  | nil => simp [Split]
  | cons c cs =>
    unfold Split
    split
    · simp
    · split <;> simp

theorem Split_cons_sep (cs : Str) (sep : Char) : Split (sep :: cs) sep = [] :: Split cs sep := by
  rw [Split, if_pos rfl]

theorem Split_cons_ne (c : Char) (cs : Str) (sep : Char) (h : c ≠ sep) (p : Str) (ps : List Str)
    (hs : Split cs sep = p :: ps) : Split (c :: cs) sep = (c :: p) :: ps := by
  rw [Split, if_neg h, hs]

theorem Split_no_sep (s : Str) (sep : Char) (h : sep ∉ s) : Split s sep = [s] := by
  induction s with
  | nil => rfl
  | cons c cs ih =>
    have hc : c ≠ sep := fun e => h (e ▸ List.mem_cons_self _ _)
    have hcs : sep ∉ cs := fun e => h (List.mem_cons_of_mem _ e)
    exact Split_cons_ne c cs sep hc cs [] (ih hcs)

theorem Split_append_sep (s rest : Str) (sep : Char) (h : sep ∉ s) :
    Split (s ++ sep :: rest) sep = s :: Split rest sep := by
  induction s with
  | nil => exact Split_cons_sep rest sep
  | cons c cs ih =>
    have hc : c ≠ sep := fun e => h (e ▸ List.mem_cons_self _ _)
    have hcs : sep ∉ cs := fun e => h (List.mem_cons_of_mem _ e)
    exact Split_cons_ne c (cs ++ sep :: rest) sep hc cs (Split rest sep) (ih hcs)

/-- Number of fields: one more than the number of separators. -/
theorem Split_length (s : Str) (sep : Char) : (Split s sep).length = s.count sep + 1 := by
  induction s with
  | nil => rfl
  | cons c cs ih =>
    unfold Split
    by_cases hc : c = sep
    · subst hc
      simp [ih]
    · rw [if_neg hc]
      have hne := Split_ne_nil cs sep
      cases hsp : Split cs sep with
      | nil => exact absurd hsp hne
      | cons p ps =>
        rw [hsp] at ih
        have : (c == sep) = false := by simpa using hc
        simp [List.count_cons, this]
        simpa using ih

theorem all_isDigit_no_space (ds : Str) (h : ds.all isDigit = true) : ' ' ∉ ds := by
  intro hm
  have := List.all_eq_true.mp h _ hm
  revert this; decide

theorem TrimSpace_eq_self_iff (s : Str) :
    TrimSpace s = s ↔ s.dropWhile isSpace = s ∧ s.rdropWhile isSpace = s := by
  unfold TrimSpace
  constructor
  · intro h
    have h1 : s.dropWhile isSpace = s := by
      have hlen : s.length ≤ (s.dropWhile isSpace).length := by
        calc s.length = ((s.dropWhile isSpace).rdropWhile isSpace).length := by rw [h]
          _ ≤ (s.dropWhile isSpace).length := (List.rdropWhile_prefix _ _).length_le
      exact (List.dropWhile_suffix isSpace).eq_of_length_le hlen
    refine ⟨h1, ?_⟩
    rw [h1] at h
    exact h
  · rintro ⟨h1, h2⟩
    rw [h1, h2]

theorem wrap64_of_range (x : Int) (h1 : -2 ^ 63 ≤ x) (h2 : x < 2 ^ 63) : wrap64 x = x := by
  unfold wrap64
  rw [Int.emod_eq_of_lt (by omega) (by omega)]
  omega

theorem secondsToDuration_exact (n : Int) (h1 : -9223372036 ≤ n) (h2 : n ≤ 9223372036) :
    secondsToDuration n = n * 1000000000 := by
  unfold secondsToDuration Second
  apply wrap64_of_range <;> omega

theorem toUint16_of_range (x : Nat) (h : x ≤ 65535) : toUint16 (x : Int) = x := by
  unfold toUint16
  rw [Int.emod_eq_of_lt (by omega) (by omega)]
  simp

/-- The SRV case when the name has three components, the first two non-empty, and the
data has four fields, the first three accepted by `Atoi`. -/
theorem srvCase_ok (L : Lib) (row : rowItem) (ttl : Int) (c0 c1 : Char) (s p n : Str)
    (more : List Str) (p0 p1 p2 p3 : Str) (a b c : Int)
    (hname : Split row.Name '.' = (c0 :: s) :: (c1 :: p) :: n :: more)
    (hdata : Split row.Rdata ' ' = [p0, p1, p2, p3])
    (ha : Atoi p0 = some a) (hb : Atoi p1 = some b) (hc : Atoi p2 = some c) :
    srvCase L row ttl =
      .ok (.SRV s p n (secondsToDuration ttl) (toUint16 a) (toUint16 b) (toUint16 c) p3) := by
  simp [srvCase, hname, hdata, index, sliceFrom, Outcome.bind, ha, hb, hc]

/-- Whatever the SRV case returns as a record was built from three name components and
four data fields. -/
theorem srvCase_ok_inv (L : Lib) (row : rowItem) (ttl : Int) (rec : Record L.Addr)
    (h : srvCase L row ttl = .ok rec) :
    ∃ s0 s1 n more p0 p1 p2 p3 a b c,
      Split row.Name '.' = s0 :: s1 :: n :: more ∧ s0 ≠ [] ∧ s1 ≠ [] ∧
      Split row.Rdata ' ' = [p0, p1, p2, p3] ∧
      Atoi p0 = some a ∧ Atoi p1 = some b ∧ Atoi p2 = some c ∧
      rec = .SRV (s0.drop 1) (s1.drop 1) n (secondsToDuration ttl)
        (toUint16 a) (toUint16 b) (toUint16 c) p3 := by
  unfold srvCase at h
  rcases hsp : Split row.Name '.' with _ | ⟨s0, _ | ⟨s1, _ | ⟨n, more⟩⟩⟩
  · simp [hsp, index, Outcome.bind] at h
  · cases s0 <;> simp [hsp, index, sliceFrom, Outcome.bind] at h
  · cases s0 <;> cases s1 <;> simp [hsp, index, sliceFrom, Outcome.bind] at h
  · cases s0 with
    | nil => simp [hsp, index, sliceFrom, Outcome.bind] at h
    | cons c0 s =>
      cases s1 with
      | nil => simp [hsp, index, sliceFrom, Outcome.bind] at h
      | cons c1 p =>
        rcases hd : Split row.Rdata ' ' with _ | ⟨p0, _ | ⟨p1, _ | ⟨p2, _ | ⟨p3, _ | ⟨p4, rest⟩⟩⟩⟩⟩
        all_goals simp [hsp, hd, index, sliceFrom, Outcome.bind] at h
        cases ha : Atoi p0 with
        | none => simp [ha] at h
        | some a =>
          cases hb : Atoi p1 with
          | none => simp [ha, hb] at h
          | some b =>
            cases hc : Atoi p2 with
            | none => simp [ha, hb, hc] at h
            | some c =>
              simp [ha, hb, hc] at h
              exact ⟨c0 :: s, c1 :: p, n, more, p0, p1, p2, p3, a, b, c, rfl, by simp, by simp,
                rfl, ha, hb, hc, by simp [← h]⟩

/-! ## Lemmas on the codec -/

theorem TrimSuffix_dot (zone : Str) : TrimSuffix zone ".".toList = stripOneTrailingDot zone := by
  unfold TrimSuffix stripOneTrailingDot
  have hiff : (".".toList.isSuffixOf zone = true) ↔ zone.getLast? = some '.' := by
    rw [List.isSuffixOf_iff_suffix, List.getLast?_eq_some_iff]
    constructor
    · rintro ⟨t, ht⟩
      exact ⟨t, ht.symm⟩
    · rintro ⟨t, ht⟩
      exact ⟨t, ht.symm⟩
  by_cases h : zone.getLast? = some '.'
  · rw [if_pos (hiff.mpr h), if_pos h, List.dropLast_eq_take]
    rfl
  · rw [if_neg (fun hh => h (hiff.mp hh)), if_neg h]

theorem normalizeNameToAPI_ok (s : Str) :
    normalizeNameToAPI s = .ok (if TrimSpace s = "@".toList then [] else TrimSpace s) := by
  simp only [normalizeNameToAPI]
  split <;> simp_all

theorem normalizeNameFromAPI_ok (s : Str) :
    normalizeNameFromAPI s = .ok (if TrimSpace s = [] then "@".toList else TrimSpace s) := by
  simp only [normalizeNameFromAPI]
  split <;> simp_all

/-- What `toWedosDNSRecord` returns, field by field. -/
theorem toWedosDNSRecord_eq (L : Lib) (r : Record L.Addr) (zone : Str) :
    toWedosDNSRecord L r zone =
      .ok ⟨stripOneTrailingDot zone,
        if TrimSpace (r.rrName L) = "@".toList then [] else TrimSpace (r.rrName L),
        Itoa r.ttl, (variantTypeData L r).1, (variantTypeData L r).2⟩ := by
  unfold toWedosDNSRecord
  rw [normalizeNameToAPI_ok]
  simp only [TrimSuffix_dot]
  cases r <;> simp [variantTypeData, Record.ttl, ARecord, AAAARecord, CNAMERecord, TXTRecord,
    MXRecord, NSRecord, SRVRecord]

theorem Atoi_Itoa (t : Int) (h1 : -2 ^ 63 ≤ t) (h2 : t < 2 ^ 63) : Atoi (Itoa t) = some t := by
  unfold Itoa
  split
  · rename_i hneg
    have hne := natToString_ne_nil t.natAbs
    have hall := natToString_all t.natAbs
    have hv := natToString_value t.natAbs
    have hle : t.natAbs ≤ 2 ^ 63 := by omega
    have hemp : (natToString t.natAbs).isEmpty = false := by
      cases hs : natToString t.natAbs with
      | nil => exact absurd hs hne
      | cons _ _ => rfl
    simp only [Atoi, beq_self_eq_true, Bool.true_or, if_true, hemp, hall, Bool.not_true,
      Bool.or_self, Bool.false_eq_true, if_false, hv, hle]
    congr 1
    omega
  · rename_i hpos
    rw [Atoi_natToString t.natAbs (by omega)]
    congr 1
    omega

theorem toLibDNSRecord_ttl_error (L : Lib) (row : rowItem) (h : Atoi row.TTL = none) :
    toLibDNSRecord L row = .error .ttl := by
  simp [toLibDNSRecord, h]

theorem toLibDNSRecord_srv (L : Lib) (row : rowItem) (ttl : Int) (h : Atoi row.TTL = some ttl)
    (ht : recordType L row = SRVRecord) : toLibDNSRecord L row = srvCase L row ttl := by
  have e1 : SRVRecord ≠ ARecord := by decide
  have e2 : SRVRecord ≠ AAAARecord := by decide
  have e3 : SRVRecord ≠ CNAMERecord := by decide
  have e4 : SRVRecord ≠ TXTRecord := by decide
  simp [toLibDNSRecord, h, ht, normalizeNameFromAPI_ok, Outcome.bind, e1, e2, e3, e4]

theorem toLibDNSRecord_generic (L : Lib) (row : rowItem) (ttl : Int)
    (h : Atoi row.TTL = some ttl)
    (ht : recordType L row ∉ [ARecord, AAAARecord, CNAMERecord, TXTRecord, SRVRecord]) :
    toLibDNSRecord L row =
      .ok (.RR ⟨if TrimSpace row.Name = [] then "@".toList else TrimSpace row.Name,
        secondsToDuration ttl, row.Rdtype, row.Rdata⟩) := by
  simp only [List.mem_cons, List.mem_singleton, List.not_mem_nil, or_false, not_or] at ht
  obtain ⟨h1, h2, h3, h4, h5⟩ := ht
  simp [toLibDNSRecord, h, normalizeNameFromAPI_ok, Outcome.bind, h1, h2, h3, h4, h5]

theorem toLibDNSRecord_txt (L : Lib) (row : rowItem) (ttl : Int) (h : Atoi row.TTL = some ttl)
    (ht : recordType L row = TXTRecord) :
    toLibDNSRecord L row =
      .ok (.TXT (if TrimSpace row.Name = [] then "@".toList else TrimSpace row.Name)
        row.Rdata (secondsToDuration ttl)) := by
  have e1 : TXTRecord ≠ ARecord := by decide
  have e2 : TXTRecord ≠ AAAARecord := by decide
  have e3 : TXTRecord ≠ CNAMERecord := by decide
  simp [toLibDNSRecord, h, ht, normalizeNameFromAPI_ok, Outcome.bind, e1, e2, e3]

theorem toLibDNSRecord_cname (L : Lib) (row : rowItem) (ttl : Int) (h : Atoi row.TTL = some ttl)
    (ht : recordType L row = CNAMERecord) :
    toLibDNSRecord L row =
      .ok (.CNAME (if TrimSpace row.Name = [] then "@".toList else TrimSpace row.Name)
        (TrimSpace row.Rdata) (secondsToDuration ttl)) := by
  have e1 : CNAMERecord ≠ ARecord := by decide
  have e2 : CNAMERecord ≠ AAAARecord := by decide
  simp [toLibDNSRecord, h, ht, normalizeNameFromAPI_ok, Outcome.bind, e1, e2]

theorem toLibDNSRecord_addr (L : Lib) (row : rowItem) (ttl : Int) (h : Atoi row.TTL = some ttl)
    (ht : recordType L row = ARecord ∨ recordType L row = AAAARecord) :
    toLibDNSRecord L row =
      match L.ParseAddr (TrimSpace row.Rdata) with
      | none => .error .addr
      | some ip => .ok (.Address (if TrimSpace row.Name = [] then "@".toList else TrimSpace row.Name)
          ip (secondsToDuration ttl)) := by
  simp [toLibDNSRecord, h, ht, normalizeNameFromAPI_ok, Outcome.bind]

/-- Every success of `toLibDNSRecord` carries the parsed TTL, multiplied in `int64`. -/
theorem toLibDNSRecord_ok_ttl (L : Lib) (row : rowItem) (rec : Record L.Addr)
    (h : toLibDNSRecord L row = .ok rec) :
    ∃ n, Atoi row.TTL = some n ∧ rec.ttl = secondsToDuration n := by
  cases hn : Atoi row.TTL with
  | none => rw [toLibDNSRecord_ttl_error L row hn] at h; cases h
  | some n =>
    refine ⟨n, rfl, ?_⟩
    by_cases hA : recordType L row = ARecord ∨ recordType L row = AAAARecord
    · rw [toLibDNSRecord_addr L row n hn hA] at h
      cases hp : L.ParseAddr (TrimSpace row.Rdata) with
      | none => rw [hp] at h; cases h
      | some ip =>
        rw [hp] at h
        cases h
        rfl
    · by_cases hC : recordType L row = CNAMERecord
      · rw [toLibDNSRecord_cname L row n hn hC] at h
        cases h
        rfl
      · by_cases hT : recordType L row = TXTRecord
        · rw [toLibDNSRecord_txt L row n hn hT] at h
          cases h
          rfl
        · by_cases hS : recordType L row = SRVRecord
          · rw [toLibDNSRecord_srv L row n hn hS] at h
            obtain ⟨s0, s1, nm, more, p0, p1, p2, p3, a, b, c, -, -, -, -, -, -, -, hrec⟩ :=
              srvCase_ok_inv L row n rec h
            rw [hrec]
            rfl
          · have hnot : recordType L row ∉
                [ARecord, AAAARecord, CNAMERecord, TXTRecord, SRVRecord] := by
              simp only [List.mem_cons, List.mem_singleton, List.not_mem_nil, or_false, not_or]
              exact ⟨fun e => hA (Or.inl e), fun e => hA (Or.inr e), hC, hT, hS⟩
            rw [toLibDNSRecord_generic L row n hn hnot] at h
            cases h
            rfl

theorem isDecimalInteger_false_Atoi (tok : Str) (h : isDecimalInteger tok = false) :
    Atoi tok = none := by
  cases tok with
  | nil => rfl
  | cons c rest =>
    simp only [isDecimalInteger] at h
    simp only [Atoi]
    by_cases hc : c = '-' ∨ c = '+'
    · have hb : (c == '-' || c == '+') = true := by
        rcases hc with rfl | rfl <;> decide
      rw [if_pos hc] at h
      rw [if_pos hb, if_pos]
      revert h
      cases rest.isEmpty <;> cases rest.all isDigit <;> simp
    · have hb : (c == '-' || c == '+') = false := by
        simp only [not_or] at hc
        simp [hc.1, hc.2]
      rw [if_neg hc] at h
      simp only [hb, Bool.false_eq_true, if_false]
      rw [if_pos]
      revert h
      cases (c :: rest).isEmpty <;> cases (c :: rest).all isDigit <;> simp

theorem isDecimalUint16_Atoi (tok : Str) (h : isDecimalUint16 tok = true) :
    Atoi tok = some (digitsValue tok : Int) ∧ toUint16 (digitsValue tok : Int) = digitsValue tok ∧
      ' ' ∉ tok := by
  simp only [isDecimalUint16, Bool.and_eq_true, Bool.not_eq_true', decide_eq_true_eq] at h
  obtain ⟨⟨hne, hall⟩, hv⟩ := h
  have hne' : tok ≠ [] := by
    intro e
    rw [e] at hne
    cases hne
  exact ⟨Atoi_digits tok hne' hall (by omega), toUint16_of_range _ hv, all_isDigit_no_space tok hall⟩

theorem decodeRows_cons (L : Lib) (row : rowItem) (rest : List rowItem) :
    decodeRows L (row :: rest) =
      (toLibDNSRecord L row).bind fun record =>
        (decodeRows L rest).bind fun records => .ok (record :: records) := rfl

theorem decodeRows_append (L : Lib) (xs ys : List rowItem) :
    decodeRows L (xs ++ ys) =
      (decodeRows L xs).bind fun a => (decodeRows L ys).bind fun b => .ok (a ++ b) := by
  induction xs with
  | nil =>
    simp only [List.nil_append, decodeRows, Outcome.bind]
    cases decodeRows L ys <;> rfl
  | cons x xs ih =>
    rw [List.cons_append, decodeRows_cons, decodeRows_cons, ih]
    cases toLibDNSRecord L x <;> cases decodeRows L xs <;> cases decodeRows L ys <;>
      simp [Outcome.bind]

theorem recordType_of_tag (L : Lib) (row : rowItem) (t : Str) (hrow : row.Rdtype = t)
    (hT : TrimSpace t = t) (hU : L.ToUpper t = t) : recordType L row = t := by
  unfold recordType
  rw [hrow, hT, hU]

theorem name_round_trip (n : Str) (h : CleanName n) :
    (if TrimSpace (if TrimSpace n = "@".toList then [] else TrimSpace n) = [] then "@".toList
      else TrimSpace (if TrimSpace n = "@".toList then [] else TrimSpace n)) = n := by
  obtain ⟨h1, h2⟩ := h
  rw [h1]
  by_cases ha : n = "@".toList
  · rw [if_pos ha, if_pos (by decide), ha]
  · rw [if_neg ha, h1, if_neg h2]

theorem rdropWhile_append_of_last (a b : Str) (hb : b.rdropWhile isSpace = b) (hne : b ≠ []) :
    (a ++ b).rdropWhile isSpace = a ++ b := by
  rw [List.rdropWhile_eq_self_iff] at hb ⊢
  intro hl
  rw [List.getLast_append_of_ne_nil hne]
  exact hb hne

theorem TrimSpace_srvName (s p n : Str) (hn : n.rdropWhile isSpace = n) :
    TrimSpace ('_' :: (s ++ '.' :: '_' :: (p ++ '.' :: n))) =
      '_' :: (s ++ '.' :: '_' :: (p ++ '.' :: n)) := by
  rw [TrimSpace_eq_self_iff]
  constructor
  · rw [List.dropWhile_cons_of_neg (by decide)]
  · have e : '_' :: (s ++ '.' :: '_' :: (p ++ '.' :: n)) =
        ('_' :: (s ++ '.' :: '_' :: p)) ++ ('.' :: n) := by simp
    rw [e]
    apply rdropWhile_append_of_last _ _ _ (by simp)
    rw [List.rdropWhile_eq_self_iff]
    intro hl
    cases n with
    | nil =>
      rw [List.getLast_singleton]
      decide
    | cons c cs =>
      rw [List.rdropWhile_eq_self_iff] at hn
      rw [List.getLast_cons (List.cons_ne_nil c cs)]
      exact hn (List.cons_ne_nil c cs)

/-! ## The claims -/

/-- C1, counterexample: a text record with a TTL of one second comes back with a TTL of
10^9 seconds; a mail-exchange record comes back as a generic record; and a name with
a leading blank comes back without it. -/
theorem C1_counterexample :
    (toWedosDNSRecord ipv4Lib (.TXT "www".toList "hello".toList (seconds 1))
        "example.com".toList =
      .ok ⟨"example.com".toList, "www".toList, "1000000000".toList, "TXT".toList,
        "hello".toList⟩ ∧
      toLibDNSRecord ipv4Lib
          ⟨"1".toList, "www".toList, "1000000000".toList, "TXT".toList, "hello".toList, [], []⟩ =
        .ok (.TXT "www".toList "hello".toList (seconds 1000000000)) ∧
      seconds 1000000000 ≠ seconds 1) ∧
    (toWedosDNSRecord ipv4Lib (.MX "@".toList 0 10 "mail.example.com".toList)
        "example.com".toList =
      .ok ⟨"example.com".toList, [], "0".toList, "MX".toList, "10 mail.example.com".toList⟩ ∧
      toLibDNSRecord ipv4Lib
          ⟨"1".toList, [], "0".toList, "MX".toList, "10 mail.example.com".toList, [], []⟩ =
        .ok (.RR ⟨"@".toList, 0, "MX".toList, "10 mail.example.com".toList⟩)) ∧
    (toWedosDNSRecord ipv4Lib (.TXT " www".toList "hello".toList 0) "example.com".toList =
      .ok ⟨"example.com".toList, "www".toList, "0".toList, "TXT".toList, "hello".toList⟩ ∧
      toLibDNSRecord ipv4Lib
          ⟨"1".toList, "www".toList, "0".toList, "TXT".toList, "hello".toList, [], []⟩ =
        .ok (.TXT "www".toList "hello".toList 0)) := by
  decide

/-- C1, as amended: for a record of the six modelled variants that is `RoundTripReady`,
with any 64-bit TTL, `toWedosDNSRecord` succeeds and `toLibDNSRecord` succeeds on every
row carrying the emitted name, ttl, type and rdata; the record it returns has the name
and the variant's fields of the original, in the original's variant for Address, CNAME,
TXT and SRV and as a generic record for MX and NS. Nothing is said of the TTL. -/
theorem C1_round_trip_content (L : Lib) (r : Record L.Addr) (zone : Str)
    (hU : ∀ t ∈ emittedTypes, L.ToUpper t = t) (hr : RoundTripReady L r) :
    ∃ w, toWedosDNSRecord L r zone = .ok w ∧
      ∀ row : rowItem, row.Name = w.name → row.TTL = w.ttl → row.Rdtype = w.type →
        row.Rdata = w.rdata →
        ∃ r', toLibDNSRecord L row = .ok r' ∧ r'.setTTL 0 = (decodedForm r).setTTL 0 := by
  refine ⟨_, toWedosDNSRecord_eq L r zone, ?_⟩
  intro row hname httl htype hdata
  simp only at hname httl htype hdata
  cases r with
  | Address n ip t =>
    obtain ⟨hn, ht, hip⟩ := hr
    have hA : Atoi row.TTL = some t := by
      rw [httl]
      exact Atoi_Itoa t ht.1 ht.2
    have hty : recordType L row = ARecord ∨ recordType L row = AAAARecord := by
      by_cases h6 : L.Is6 ip = true
      · right
        exact recordType_of_tag L row _ (by simpa [variantTypeData, h6] using htype)
          (by decide) (hU _ (by simp [emittedTypes]))
      · left
        exact recordType_of_tag L row _ (by simpa [variantTypeData, h6] using htype)
          (by decide) (hU _ (by simp [emittedTypes]))
    have hd : row.Rdata = L.addrString ip := hdata
    rw [toLibDNSRecord_addr L row _ hA hty, hd, hip, hname]
    exact ⟨_, rfl, congrArg (fun x => Record.Address x ip 0) (name_round_trip n hn)⟩
  | CNAME n target t =>
    obtain ⟨hn, ht, htg⟩ := hr
    have hA : Atoi row.TTL = some t := by
      rw [httl]
      exact Atoi_Itoa t ht.1 ht.2
    have hty : recordType L row = CNAMERecord :=
      recordType_of_tag L row _ htype (by decide) (hU _ (by simp [emittedTypes]))
    have hd : row.Rdata = target := hdata
    rw [toLibDNSRecord_cname L row _ hA hty, hd, htg, hname]
    exact ⟨_, rfl, congrArg (fun x => Record.CNAME x target 0) (name_round_trip n hn)⟩
  | TXT n text t =>
    obtain ⟨hn, ht⟩ := hr
    have hA : Atoi row.TTL = some t := by
      rw [httl]
      exact Atoi_Itoa t ht.1 ht.2
    have hty : recordType L row = TXTRecord :=
      recordType_of_tag L row _ htype (by decide) (hU _ (by simp [emittedTypes]))
    have hd : row.Rdata = text := hdata
    rw [toLibDNSRecord_txt L row _ hA hty, hd, hname]
    exact ⟨_, rfl, congrArg (fun x => Record.TXT x text 0) (name_round_trip n hn)⟩
  | MX n t preference target =>
    obtain ⟨hn, ht⟩ := hr
    have hA : Atoi row.TTL = some t := by
      rw [httl]
      exact Atoi_Itoa t ht.1 ht.2
    have hty : recordType L row = MXRecord :=
      recordType_of_tag L row _ htype (by decide) (hU _ (by simp [emittedTypes]))
    have hnot : recordType L row ∉ [ARecord, AAAARecord, CNAMERecord, TXTRecord, SRVRecord] := by
      rw [hty]
      decide
    have hd : row.Rdata = natToString preference ++ ' ' :: target := hdata
    have ht' : row.Rdtype = MXRecord := htype
    rw [toLibDNSRecord_generic L row _ hA hnot, hd, ht', hname]
    exact ⟨_, rfl, congrArg
      (fun x => Record.RR ⟨x, 0, MXRecord, natToString preference ++ ' ' :: target⟩)
      (name_round_trip n hn)⟩
  | NS n t target =>
    obtain ⟨hn, ht⟩ := hr
    have hA : Atoi row.TTL = some t := by
      rw [httl]
      exact Atoi_Itoa t ht.1 ht.2
    have hty : recordType L row = NSRecord :=
      recordType_of_tag L row _ htype (by decide) (hU _ (by simp [emittedTypes]))
    have hnot : recordType L row ∉ [ARecord, AAAARecord, CNAMERecord, TXTRecord, SRVRecord] := by
      rw [hty]
      decide
    have hd : row.Rdata = target := hdata
    have ht' : row.Rdtype = NSRecord := htype
    rw [toLibDNSRecord_generic L row _ hA hnot, hd, ht', hname]
    exact ⟨_, rfl, congrArg (fun x => Record.RR ⟨x, 0, NSRecord, target⟩) (name_round_trip n hn)⟩
  | SRV s p n t priority weight port target =>
    obtain ⟨ht, hsrv, hs, hp, hn, hnsp, hpr, hw, hpo, htg⟩ := hr
    have hA : Atoi row.TTL = some t := by
      rw [httl]
      exact Atoi_Itoa t ht.1 ht.2
    have hty : recordType L row = SRVRecord :=
      recordType_of_tag L row _ htype (by decide) (hU _ (by simp [emittedTypes]))
    have hX : L.srvRRName s p n = '_' :: (s ++ '.' :: '_' :: (p ++ '.' :: n)) := by
      rw [hsrv]
      simp [String.toList]
    have hnm : row.Name = ('_' :: s) ++ '.' :: (('_' :: p) ++ '.' :: n) := by
      rw [hname]
      simp only [Record.rrName, hX, TrimSpace_srvName s p n hnsp]
      rw [if_neg (by simp [String.toList])]
      simp
    have hsplit : Split row.Name '.' = ('_' :: s) :: ('_' :: p) :: n :: [] := by
      rw [hnm, Split_append_sep _ _ _ (by simpa using hs),
        Split_append_sep _ _ _ (by simpa using hp), Split_no_sep _ _ hn]
    have hparts : Split row.Rdata ' ' =
        [natToString priority, natToString weight, natToString port, target] := by
      have hd : row.Rdata = natToString priority ++ ' ' ::
          (natToString weight ++ ' ' :: (natToString port ++ ' ' :: target)) := hdata
      rw [hd, Split_append_sep _ _ _ (all_isDigit_no_space _ (natToString_all _)),
        Split_append_sep _ _ _ (all_isDigit_no_space _ (natToString_all _)),
        Split_append_sep _ _ _ (all_isDigit_no_space _ (natToString_all _)),
        Split_no_sep _ _ htg]
    rw [toLibDNSRecord_srv L row _ hA hty,
      srvCase_ok L row _ '_' '_' s p n [] _ _ _ _ _ _ _ hsplit hparts
        (Atoi_natToString priority (by omega)) (Atoi_natToString weight (by omega))
        (Atoi_natToString port (by omega)),
      toUint16_of_range _ hpr, toUint16_of_range _ hw, toUint16_of_range _ hpo]
    exact ⟨_, rfl, rfl⟩
  | RR rr => exact absurd hr id
  | other rr => exact absurd hr id

/-- C1, witness: the service locator `_sip._tcp.voice` of the specification's
scenario. -/
theorem C1_round_trip_content_witness :
    ∃ w, toWedosDNSRecord ipv4Lib
        (.SRV "sip".toList "tcp".toList "voice".toList (seconds 300) 10 20 5060
          "sip.example.com".toList) "example.com.".toList = .ok w ∧
      ∀ row : rowItem, row.Name = w.name → row.TTL = w.ttl → row.Rdtype = w.type →
        row.Rdata = w.rdata →
        ∃ r', toLibDNSRecord ipv4Lib row = .ok r' ∧
          r'.setTTL 0 = (decodedForm (.SRV "sip".toList "tcp".toList "voice".toList
            (seconds 300) 10 20 5060 "sip.example.com".toList)).setTTL 0 :=
  C1_round_trip_content ipv4Lib _ _ (by decide)
    ⟨⟨by decide, by decide⟩, by decide, by decide, by decide, by decide, by decide, by decide,
      by decide, by decide, by decide⟩

/-- C2 (code bug): the `ttl` field carries the nanosecond count of the `time.Duration`,
so an address record with a TTL of 600 seconds is emitted with the field
`600000000000`, not `600`. -/
theorem C2_ttl_emitted_in_nanoseconds :
    toWedosDNSRecord ipv4Lib (.Address "www".toList (1, 2, 3, 4) (seconds 600))
        "example.com".toList =
      .ok ⟨"example.com".toList, "www".toList, "600000000000".toList, "A".toList,
        "1.2.3.4".toList⟩ := by
  decide

/-- C3, counterexample: a text record with a TTL of minus five seconds is encoded
without error, and all five row fields are returned. -/
theorem C3_counterexample :
    toWedosDNSRecord ipv4Lib (.TXT "www".toList "v=spf1 -all".toList (seconds (-5)))
        "example.com".toList =
      .ok ⟨"example.com".toList, "www".toList, "-5000000000".toList, "TXT".toList,
        "v=spf1 -all".toList⟩ := by
  decide

/-- C3, as amended: `toWedosDNSRecord` never returns an error; for every record, of any
variant and any TTL, negative ones included, and every zone it returns the row
fields. -/
theorem C3_encode_never_fails (L : Lib) (r : Record L.Addr) (zone : Str) :
    ∃ w, toWedosDNSRecord L r zone = .ok w :=
  ⟨_, toWedosDNSRecord_eq L r zone⟩

/-- C4: for every record and zone, `toWedosDNSRecord` emits as `domain` the zone with
one trailing dot removed, and as `type` and `rdata` the pair fixed by the variant. -/
theorem C4_encode_dispatch (L : Lib) (r : Record L.Addr) (zone : Str) :
    ∃ w, toWedosDNSRecord L r zone = .ok w ∧ w.domain = stripOneTrailingDot zone ∧
      (w.type, w.rdata) = variantTypeData L r :=
  ⟨_, toWedosDNSRecord_eq L r zone, rfl, rfl⟩

/-- C5: name normalisation on the apex: the empty name of the API goes to `@` and back
to the empty name, and `@` goes to the empty name and back to `@`, without error. -/
theorem C5_apex_involution :
    (normalizeNameFromAPI []).bind normalizeNameToAPI = .ok [] ∧
      (normalizeNameToAPI "@".toList).bind normalizeNameFromAPI = .ok "@".toList := by
  decide

/-- C6, counterexample: the SRV row of the specification's scenario with the numeric
ttl `9223372037` decodes to a record whose TTL is negative, not 9223372037 seconds:
the multiplication by `time.Second` overflows. -/
theorem C6_counterexample :
    toLibDNSRecord ipv4Lib
        ⟨"1".toList, "_sip._tcp.voice".toList, "9223372037".toList, "SRV".toList,
          "10 20 5060 sip.example.com".toList, [], []⟩ =
      .ok (.SRV "sip".toList "tcp".toList "voice".toList (-9223372036709551616) 10 20 5060
        "sip.example.com".toList) ∧
      (-9223372036709551616 : Int) ≠ seconds 9223372037 := by
  decide

/-- C6, as amended: an SRV row whose ttl is an integer of at most 9223372036 in absolute
value, whose name is `_s._p.n` with no dot in `s`, `p`, `n`, and whose data is
`pr w po t` with `pr`, `w`, `po` decimal integers in `0 .. 65535` and no space in `t`,
decodes to the service locator with service `s`, transport `p`, name `n`, those three
numbers, target `t` and a TTL of exactly ttl seconds. -/
theorem C6_srv_decode (L : Lib) (row : rowItem) (ttl : Int) (s p n pr w po t : Str)
    (htype : recordType L row = SRVRecord)
    (httl : Atoi row.TTL = some ttl)
    (hrange : -9223372036 ≤ ttl ∧ ttl ≤ 9223372036)
    (hname : row.Name = "_".toList ++ s ++ "._".toList ++ p ++ ".".toList ++ n)
    (hs : '.' ∉ s) (hp : '.' ∉ p) (hn : '.' ∉ n)
    (hdata : row.Rdata = pr ++ " ".toList ++ w ++ " ".toList ++ po ++ " ".toList ++ t)
    (hpr : isDecimalUint16 pr = true) (hw : isDecimalUint16 w = true)
    (hpo : isDecimalUint16 po = true) (ht : ' ' ∉ t) :
    toLibDNSRecord L row =
      .ok (.SRV s p n (seconds ttl) (digitsValue pr) (digitsValue w) (digitsValue po) t) := by
  obtain ⟨ha, hua, hsa⟩ := isDecimalUint16_Atoi pr hpr
  obtain ⟨hb, hub, hsb⟩ := isDecimalUint16_Atoi w hw
  obtain ⟨hc, huc, hsc⟩ := isDecimalUint16_Atoi po hpo
  have hsplit : Split row.Name '.' = ('_' :: s) :: ('_' :: p) :: n :: [] := by
    have e : row.Name = ('_' :: s) ++ '.' :: (('_' :: p) ++ '.' :: n) := by
      rw [hname]
      simp [String.toList]
    rw [e, Split_append_sep _ _ _ (by simpa using hs), Split_append_sep _ _ _ (by simpa using hp),
      Split_no_sep _ _ hn]
  have hparts : Split row.Rdata ' ' = [pr, w, po, t] := by
    have e : row.Rdata = pr ++ ' ' :: (w ++ ' ' :: (po ++ ' ' :: t)) := by
      rw [hdata]
      simp [String.toList]
    rw [e, Split_append_sep _ _ _ hsa, Split_append_sep _ _ _ hsb, Split_append_sep _ _ _ hsc,
      Split_no_sep _ _ ht]
  rw [toLibDNSRecord_srv L row ttl httl htype,
    srvCase_ok L row ttl '_' '_' s p n [] pr w po t _ _ _ hsplit hparts ha hb hc, hua, hub, huc,
    secondsToDuration_exact ttl hrange.1 hrange.2]
  rfl

/-- C6, witness: the scenario of the specification, row name `_sip._tcp.voice` with data
`10 20 5060 sip.example.com`. -/
theorem C6_srv_decode_witness :
    toLibDNSRecord ipv4Lib
        ⟨"1".toList, "_sip._tcp.voice".toList, "300".toList, "SRV".toList,
          "10 20 5060 sip.example.com".toList, [], []⟩ =
      .ok (.SRV "sip".toList "tcp".toList "voice".toList 300000000000 10 20 5060
        "sip.example.com".toList) :=
  C6_srv_decode ipv4Lib _ 300 "sip".toList "tcp".toList "voice".toList "10".toList "20".toList
    "5060".toList "sip.example.com".toList (by decide) (by decide) (by decide) (by decide)
    (by decide) (by decide) (by decide) (by decide) (by decide) (by decide) (by decide)
    (by decide)

/-- C7, counterexample: an SRV row whose priority, weight and port tokens are 65536, -1
and 70000 decodes to a record, with priority 0, weight 65535 and port 4464. -/
theorem C7_counterexample :
    toLibDNSRecord ipv4Lib
        ⟨"1".toList, "_sip._tcp.voice".toList, "300".toList, "SRV".toList,
          "65536 -1 70000 sip.example.com".toList, [], []⟩ =
      .ok (.SRV "sip".toList "tcp".toList "voice".toList 300000000000 0 65535 4464
        "sip.example.com".toList) := by
  decide

/-- C7, as amended: whenever an SRV row decodes successfully, its data has four
space-separated tokens, the first three are integers `Atoi` accepts, and the record's
priority, weight and port are those integers modulo 65536. -/
theorem C7_srv_numbers_mod_65536 (L : Lib) (row : rowItem) (rec : Record L.Addr)
    (htype : recordType L row = SRVRecord) (hok : toLibDNSRecord L row = .ok rec) :
    ∃ p0 p1 p2 p3 a b c, Split row.Rdata ' ' = [p0, p1, p2, p3] ∧
      Atoi p0 = some a ∧ Atoi p1 = some b ∧ Atoi p2 = some c ∧
      rec.srvNumbers = some ((a % 65536).toNat, (b % 65536).toNat, (c % 65536).toNat) := by
  cases hn : Atoi row.TTL with
  | none => rw [toLibDNSRecord_ttl_error L row hn] at hok; cases hok
  | some n =>
    rw [toLibDNSRecord_srv L row n hn htype] at hok
    obtain ⟨s0, s1, nm, more, p0, p1, p2, p3, a, b, c, -, -, -, hd, ha, hb, hc, hrec⟩ :=
      srvCase_ok_inv L row n rec hok
    exact ⟨p0, p1, p2, p3, a, b, c, hd, ha, hb, hc, by rw [hrec]; rfl⟩

/-- C7, witness: the row of the counterexample. -/
theorem C7_srv_numbers_mod_65536_witness :
    ∃ p0 p1 p2 p3 a b c,
      Split "65536 -1 70000 sip.example.com".toList ' ' = [p0, p1, p2, p3] ∧
      Atoi p0 = some a ∧ Atoi p1 = some b ∧ Atoi p2 = some c ∧
      (Record.SRV "sip".toList "tcp".toList "voice".toList 300000000000 0 65535 4464
          "sip.example.com".toList : Record ipv4Lib.Addr).srvNumbers =
        some ((a % 65536).toNat, (b % 65536).toNat, (c % 65536).toNat) :=
  C7_srv_numbers_mod_65536 ipv4Lib
    ⟨"1".toList, "_sip._tcp.voice".toList, "300".toList, "SRV".toList,
      "65536 -1 70000 sip.example.com".toList, [], []⟩ _ (by decide) (by decide)

/-- C8, counterexample: an SRV row with a numeric ttl and malformed data whose name has
a single component makes `toLibDNSRecord` panic on `service[1]`; no error is
returned. -/
theorem C8_counterexample :
    toLibDNSRecord ipv4Lib
        ⟨"1".toList, "www".toList, "300".toList, "SRV".toList, "oops".toList, [], []⟩ =
      .panic := by
  decide

/-- C8, as amended: for an SRV row with a numeric ttl whose name has at least three
dot-separated components, the first two of them non-empty, `toLibDNSRecord` returns an
error when the data does not split into exactly four space-separated tokens or one of
the first three tokens is not a decimal integer. -/
theorem C8_srv_malformed_data (L : Lib) (row : rowItem) (ttl : Int) (s0 s1 n : Str)
    (more : List Str)
    (htype : recordType L row = SRVRecord) (httl : Atoi row.TTL = some ttl)
    (hname : Split row.Name '.' = s0 :: s1 :: n :: more) (h0 : s0 ≠ []) (h1 : s1 ≠ [])
    (hbad : (Split row.Rdata ' ').length ≠ 4 ∨
      ∃ i tok, i < 3 ∧ (Split row.Rdata ' ').get? i = some tok ∧ isDecimalInteger tok = false) :
    toLibDNSRecord L row = .error .srvFields ∨ toLibDNSRecord L row = .error .srvNumber := by
  rw [toLibDNSRecord_srv L row ttl httl htype]
  cases s0 with
  | nil => exact absurd rfl h0
  | cons c0 s =>
    cases s1 with
    | nil => exact absurd rfl h1
    | cons c1 p =>
      by_cases hlen : (Split row.Rdata ' ').length = 4
      · right
        rcases hbad with hbad | ⟨i, tok, hi, hget, htok⟩
        · exact absurd hlen hbad
        · have hnone := isDecimalInteger_false_Atoi tok htok
          rcases hd : Split row.Rdata ' ' with
            _ | ⟨p0, _ | ⟨p1, _ | ⟨p2, _ | ⟨p3, _ | ⟨p4, rest⟩⟩⟩⟩⟩
          all_goals rw [hd] at hlen hget
          all_goals simp at hlen
          have hcases : i = 0 ∨ i = 1 ∨ i = 2 := by omega
          rcases hcases with rfl | rfl | rfl
          · simp at hget
            subst hget
            simp [srvCase, hname, hd, index, sliceFrom, Outcome.bind, hnone]
          · simp at hget
            subst hget
            cases ha : Atoi p0 <;>
              simp [srvCase, hname, hd, index, sliceFrom, Outcome.bind, hnone, ha]
          · simp at hget
            subst hget
            cases ha : Atoi p0 <;> cases hb : Atoi p1 <;>
              simp [srvCase, hname, hd, index, sliceFrom, Outcome.bind, hnone, ha, hb]
      · left
        simp [srvCase, hname, index, sliceFrom, Outcome.bind, hlen]

/-- C8, witness: a well-named SRV row whose data has three tokens. -/
theorem C8_srv_malformed_data_witness :
    toLibDNSRecord ipv4Lib
        ⟨"1".toList, "_sip._tcp.voice".toList, "300".toList, "SRV".toList,
          "10 20 5060".toList, [], []⟩ = .error .srvFields ∨
      toLibDNSRecord ipv4Lib
        ⟨"1".toList, "_sip._tcp.voice".toList, "300".toList, "SRV".toList,
          "10 20 5060".toList, [], []⟩ = .error .srvNumber :=
  C8_srv_malformed_data ipv4Lib _ 300 "_sip".toList "_tcp".toList "voice".toList []
    (by decide) (by decide) (by decide) (by decide) (by decide) (Or.inl (by decide))

/-- C9, counterexample: a TXT row whose ttl is `-5` decodes without error, to a record
with a TTL of minus five seconds. -/
theorem C9_counterexample :
    toLibDNSRecord ipv4Lib
        ⟨"1".toList, "www".toList, "-5".toList, "TXT".toList, "hello".toList, [], []⟩ =
      .ok (.TXT "www".toList "hello".toList (-5000000000)) ∧
      (-5000000000 : Int) < 0 := by
  decide

/-- C9, as amended: `toLibDNSRecord` returns the ttl error whenever `Atoi` rejects
`row.ttl`, in particular when it is not an optionally signed decimal integer; whenever
it succeeds, `row.ttl` is an integer `n` that `Atoi` accepts and the record's TTL is
`n` seconds computed in 64 bits, which is exactly `n` seconds, and non-negative, when
`0 ≤ n ≤ 9223372036`. -/
theorem C9_decode_ttl (L : Lib) (row : rowItem) :
    (Atoi row.TTL = none → toLibDNSRecord L row = .error .ttl) ∧
    (isDecimalInteger row.TTL = false → toLibDNSRecord L row = .error .ttl) ∧
    (∀ rec, toLibDNSRecord L row = .ok rec →
      ∃ n, Atoi row.TTL = some n ∧ rec.ttl = wrap64 (n * 1000000000) ∧
        (0 ≤ n → n ≤ 9223372036 → rec.ttl = seconds n ∧ 0 ≤ rec.ttl)) := by
  refine ⟨toLibDNSRecord_ttl_error L row, fun h =>
    toLibDNSRecord_ttl_error L row (isDecimalInteger_false_Atoi _ h), ?_⟩
  intro rec hok
  obtain ⟨n, hn, httl⟩ := toLibDNSRecord_ok_ttl L row rec hok
  refine ⟨n, hn, httl, ?_⟩
  intro h0 h1
  rw [httl, secondsToDuration_exact n (by omega) h1]
  constructor
  · rfl
  · omega

/-- C9, witness: an address row whose ttl is `300`, and one whose ttl is `5m`. -/
theorem C9_decode_ttl_witness :
    toLibDNSRecord ipv4Lib
        ⟨"1".toList, "www".toList, "5m".toList, "A".toList, "1.2.3.4".toList, [], []⟩ =
      .error .ttl ∧
    ∃ n, Atoi "300".toList = some n ∧
      (Record.Address "www".toList (1, 2, 3, 4) 300000000000 : Record ipv4Lib.Addr).ttl =
        wrap64 (n * 1000000000) :=
  ⟨(C9_decode_ttl ipv4Lib
      ⟨"1".toList, "www".toList, "5m".toList, "A".toList, "1.2.3.4".toList, [], []⟩).1
      (by decide),
    let ⟨n, h1, h2, _⟩ := (C9_decode_ttl ipv4Lib
      ⟨"1".toList, "www".toList, "300".toList, "A".toList, "1.2.3.4".toList, [], []⟩).2.2
      (.Address "www".toList (1, 2, 3, 4) 300000000000) (by decide)
    ⟨n, h1, h2⟩⟩

/-! ## Lemmas on the operations -/

theorem toWedosDNSRecord_encoded (L : Lib) (r : Record L.Addr) (zone : Str) :
    toWedosDNSRecord L r zone = .ok (encoded L r zone) :=
  toWedosDNSRecord_eq L r zone

theorem roundTrip_credentials {σ : Type} (T : Transport σ) (p : Provider) (s : σ)
    (command clTRID : Str) (payload : Payload) (into : Bool)
    (h : p.Username = [] ∨ p.Password = []) :
    roundTrip T p s command clTRID payload into = ⟨.error .credentials, s, []⟩ := by
  simp [roundTrip, buildRequest, h]

/-- With credentials, a round trip is one exchange: the request goes out, and the
result is what `doRequest` and `parseResponse` make of the reply. -/
theorem roundTrip_eq {σ : Type} (T : Transport σ) (p : Provider) (s : σ)
    (command clTRID : Str) (payload : Payload) (into : Bool)
    (h : p.Username ≠ [] ∧ p.Password ≠ []) :
    roundTrip T p s command clTRID payload into =
      ⟨replyOutcome (T.Do s ⟨p.Username, command, clTRID, payload⟩).1 into,
        (T.Do s ⟨p.Username, command, clTRID, payload⟩).2,
        [(⟨p.Username, command, clTRID, payload⟩,
          (T.Do s ⟨p.Username, command, clTRID, payload⟩).1)]⟩ := by
  have hb : buildRequest p command clTRID payload = .ok ⟨p.Username, command, clTRID, payload⟩ := by
    simp [buildRequest, h.1, h.2]
  simp only [roundTrip, hb, doRequest]
  rcases hd : T.Do s ⟨p.Username, command, clTRID, payload⟩ with ⟨res, s'⟩
  cases res with
  | failed => simp [replyOutcome]
  | body b => simp [replyOutcome]

theorem replyOutcome_ok_code (res : HttpResult) (into : Bool) (v : response × List rowItem)
    (h : replyOutcome res into = .ok v) : replyCode res = some v.1.Code := by
  cases res with
  | failed => simp [replyOutcome] at h
  | body b =>
    cases b with
    | none => simp [replyOutcome, parseResponse] at h
    | some env =>
      simp only [replyOutcome, parseResponse] at h
      cases hd : env.Data with
      | none =>
        rw [hd] at h
        simp only [Outcome.ok.injEq] at h
        rw [← h]
        rfl
      | some data =>
        rw [hd] at h
        simp only at h
        split at h
        · cases data with
          | invalid => simp at h
          | valid row =>
            simp only [Outcome.ok.injEq] at h
            rw [← h]
            rfl
        · simp only [Outcome.ok.injEq] at h
          rw [← h]
          rfl

theorem replyOutcome_not_panic (res : HttpResult) (into : Bool) :
    replyOutcome res into ≠ .panic := by
  cases res with
  | failed => simp [replyOutcome]
  | body b =>
    cases b with
    | none => simp [replyOutcome, parseResponse]
    | some env =>
      simp only [replyOutcome, parseResponse]
      cases env.Data with
      | none => simp
      | some data =>
        simp only
        split
        · cases data <;> simp
        · simp

/-- One turn of the loop of AppendRecords, with credentials. -/
theorem appendLoop_cons {σ : Type} (L : Lib) (T : Transport σ) (p : Provider) (zone : Str)
    (h : p.Username ≠ [] ∧ p.Password ≠ []) (r : Record L.Addr) (rest added : List (Record L.Addr))
    (s : σ) :
    appendLoop L T p zone (r :: rest) added s =
      match replyOutcome (T.Do s (createRequest L p zone r)).1 true with
      | .error e =>
        ⟨.error e, (T.Do s (createRequest L p zone r)).2,
          [(createRequest L p zone r, (T.Do s (createRequest L p zone r)).1)]⟩
      | .panic =>
        ⟨.panic, (T.Do s (createRequest L p zone r)).2,
          [(createRequest L p zone r, (T.Do s (createRequest L p zone r)).1)]⟩
      | .ok v =>
        ⟨(appendLoop L T p zone rest (if v.1.Code = 1000 then added ++ [r] else added)
            (T.Do s (createRequest L p zone r)).2).result,
          (appendLoop L T p zone rest (if v.1.Code = 1000 then added ++ [r] else added)
            (T.Do s (createRequest L p zone r)).2).state,
          (createRequest L p zone r, (T.Do s (createRequest L p zone r)).1) ::
            (appendLoop L T p zone rest (if v.1.Code = 1000 then added ++ [r] else added)
              (T.Do s (createRequest L p zone r)).2).trace⟩ := by
  rw [appendLoop]
  simp only [toWedosDNSRecord_encoded, roundTrip_eq T p s _ _ _ _ h]
  unfold createRequest
  cases replyOutcome (T.Do s ⟨p.Username, Command.AppendRecords, "AppendRecords".toList,
    .record (encoded L r zone)⟩).1 true with
  | ok v => rfl
  | error e => rfl
  | panic => rfl

/-- The loop of AppendRecords when no exchange fails: one create request per record,
and the records answered with code 1000 are added. -/
theorem appendLoop_spec {σ : Type} (L : Lib) (T : Transport σ) (p : Provider) (zone : Str)
    (h : p.Username ≠ [] ∧ p.Password ≠ []) (records : List (Record L.Addr)) :
    ∀ (added : List (Record L.Addr)) (s : σ),
      (∀ ex ∈ (appendLoop L T p zone records added s).trace, noError ex = true) →
      (appendLoop L T p zone records added s).trace.map (fun ex => ex.1) =
          records.map (createRequest L p zone) ∧
        (appendLoop L T p zone records added s).result =
          .ok (added ++ ((records.zip (appendLoop L T p zone records added s).trace).filter
            fun x => replyCode x.2.2 = some 1000).map fun x => x.1) := by
  induction records with
  | nil =>
    intro added s _
    simp [appendLoop]
  | cons r rest ih =>
    intro added s hgood
    rw [appendLoop_cons L T p zone h] at hgood ⊢
    cases hv : replyOutcome (T.Do s (createRequest L p zone r)).1 true with
    | error e =>
      rw [hv] at hgood
      have := hgood _ (List.mem_singleton.mpr rfl)
      have hr : readsData (createRequest L p zone r) = true := rfl
      simp [noError, hr, hv] at this
    | panic => exact absurd hv (replyOutcome_not_panic _ _)
    | ok v =>
      rw [hv] at hgood
      simp only at hgood ⊢
      have hcode := replyOutcome_ok_code _ _ v hv
      obtain ⟨ih1, ih2⟩ := ih (if v.1.Code = 1000 then added ++ [r] else added)
        (T.Do s (createRequest L p zone r)).2
        (fun ex hex => hgood ex (List.mem_cons_of_mem _ hex))
      refine ⟨by simp [ih1], ?_⟩
      rw [ih2]
      simp only [List.zip_cons_cons, List.filter_cons, hcode]
      by_cases hc : v.1.Code = 1000
      · simp [hc]
      · simp [hc]

/-- Looking a name and type up in `remoteMap` finds the occupant: the last row with
that name and type. -/
theorem remoteMap_lookup (rows : List rowItem) (name type : Str) :
    (remoteMap rows).lookup ⟨name, type, []⟩ = occupant rows name type := by
  induction rows using List.reverseRecOn with
  | nil => rfl
  | append_singleton init r ih =>
    have hm : remoteMap (init ++ [r]) = ((⟨r.Name, r.Rdtype, []⟩ : recordKey), r) :: remoteMap init := by
      simp [remoteMap]
    rw [hm, List.lookup_cons]
    unfold occupant at ih ⊢
    rw [List.filter_append]
    by_cases hk : r.Name = name ∧ r.Rdtype = type
    · have hb : ((⟨name, type, []⟩ : recordKey) == ⟨r.Name, r.Rdtype, []⟩) = true := by
        rw [beq_iff_eq, hk.1, hk.2]
      rw [hb]
      simp [List.filter_cons, hk]
    · have hb : ((⟨name, type, []⟩ : recordKey) == ⟨r.Name, r.Rdtype, []⟩) = false := by
        rw [beq_eq_false_iff_ne]
        intro e
        apply hk
        simp only [recordKey.mk.injEq] at e
        exact ⟨e.1.symm, e.2.1.symm⟩
      rw [hb]
      simp only [List.filter_cons, List.filter_nil]
      have hd : decide (r.Name = name ∧ r.Rdtype = type) = false := by simpa using hk
      simp only [hd, Bool.false_eq_true, if_false, List.append_nil]
      exact ih

theorem occupant_isSome_iff (rows : List rowItem) (name type : Str) :
    (∃ remote, occupant rows name type = some remote) ↔
      ∃ row ∈ rows, row.Name = name ∧ row.Rdtype = type := by
  unfold occupant
  constructor
  · rintro ⟨remote, h⟩
    have hm := List.mem_of_getLast?_eq_some h
    rw [List.mem_filter] at hm
    exact ⟨remote, hm.1, by simpa using hm.2⟩
  · rintro ⟨row, hrow, hk⟩
    have hm : row ∈ rows.filter fun row => row.Name = name ∧ row.Rdtype = type := by
      rw [List.mem_filter]
      exact ⟨hrow, by simpa using hk⟩
    cases hf : (rows.filter fun row => decide (row.Name = name ∧ row.Rdtype = type)).getLast? with
    | none =>
      rw [List.getLast?_eq_none_iff] at hf
      rw [hf] at hm
      cases hm
    | some remote => exact ⟨remote, rfl⟩

theorem occupant_some_mem (rows : List rowItem) (name type : Str) (remote : rowItem)
    (h : occupant rows name type = some remote) :
    remote ∈ rows ∧ remote.Name = name ∧ remote.Rdtype = type := by
  unfold occupant at h
  have hm := List.mem_of_getLast?_eq_some h
  rw [List.mem_filter] at hm
  exact ⟨hm.1, by simpa using hm.2⟩

/-- One turn of the loop of SetRecords, with credentials: the request is the one the
decision rule prescribes, and the record counts as updated after an update, or after a
create answered with code 1000. -/
theorem setLoop_cons {σ : Type} (L : Lib) (T : Transport σ) (p : Provider) (zone : Str)
    (h : p.Username ≠ [] ∧ p.Password ≠ []) (rows : List rowItem) (r : Record L.Addr)
    (rest updated : List (Record L.Addr)) (s : σ) :
    setLoop L T p zone (remoteMap rows) (r :: rest) updated s =
      match replyOutcome (T.Do s (setRequest L p zone rows r)).1
          (readsData (setRequest L p zone rows r)) with
      | .error e =>
        ⟨.error e, (T.Do s (setRequest L p zone rows r)).2,
          [(setRequest L p zone rows r, (T.Do s (setRequest L p zone rows r)).1)]⟩
      | .panic =>
        ⟨.panic, (T.Do s (setRequest L p zone rows r)).2,
          [(setRequest L p zone rows r, (T.Do s (setRequest L p zone rows r)).1)]⟩
      | .ok v =>
        ⟨(setLoop L T p zone (remoteMap rows) rest
            (if (setRequest L p zone rows r).Command = Command.UpdateRecords ∨ v.1.Code = 1000
              then updated ++ [r] else updated)
            (T.Do s (setRequest L p zone rows r)).2).result,
          (setLoop L T p zone (remoteMap rows) rest
            (if (setRequest L p zone rows r).Command = Command.UpdateRecords ∨ v.1.Code = 1000
              then updated ++ [r] else updated)
            (T.Do s (setRequest L p zone rows r)).2).state,
          (setRequest L p zone rows r, (T.Do s (setRequest L p zone rows r)).1) ::
            (setLoop L T p zone (remoteMap rows) rest
              (if (setRequest L p zone rows r).Command = Command.UpdateRecords ∨ v.1.Code = 1000
                then updated ++ [r] else updated)
              (T.Do s (setRequest L p zone rows r)).2).trace⟩ := by
  have hne : Command.AppendRecords ≠ Command.UpdateRecords := by decide
  rw [setLoop]
  simp only [toWedosDNSRecord_encoded, remoteMap_lookup]
  cases hocc : occupant rows (encoded L r zone).name (encoded L r zone).type with
  | none =>
    simp only [setRequest, hocc, roundTrip_eq T p s _ _ _ _ h, createRequest, readsData]
    split <;> simp_all
  | some remote =>
    simp only [setRequest, hocc, roundTrip_eq T p s _ _ _ _ h, updateRequest, readsData]
    split <;> simp_all

/-- The loop of SetRecords when no exchange fails: one request per record, the one the
decision rule prescribes, and a record counts as updated after an update, or after a
create answered with code 1000. -/
theorem setLoop_spec {σ : Type} (L : Lib) (T : Transport σ) (p : Provider) (zone : Str)
    (h : p.Username ≠ [] ∧ p.Password ≠ []) (rows : List rowItem)
    (records : List (Record L.Addr)) :
    ∀ (updated : List (Record L.Addr)) (s : σ),
      (∀ ex ∈ (setLoop L T p zone (remoteMap rows) records updated s).trace,
        noError ex = true) →
      (setLoop L T p zone (remoteMap rows) records updated s).trace.map (fun ex => ex.1) =
          records.map (setRequest L p zone rows) ∧
        (setLoop L T p zone (remoteMap rows) records updated s).result =
          .ok (updated ++
            ((records.zip (setLoop L T p zone (remoteMap rows) records updated s).trace).filter
              fun x => x.2.1.Command = Command.UpdateRecords ∨
                replyCode x.2.2 = some 1000).map fun x => x.1) := by
  induction records with
  | nil =>
    intro updated s _
    simp [setLoop]
  | cons r rest ih =>
    intro updated s hgood
    rw [setLoop_cons L T p zone h] at hgood ⊢
    cases hv : replyOutcome (T.Do s (setRequest L p zone rows r)).1
        (readsData (setRequest L p zone rows r)) with
    | error e =>
      rw [hv] at hgood
      have := hgood _ (List.mem_singleton.mpr rfl)
      simp [noError, hv] at this
    | panic => exact absurd hv (replyOutcome_not_panic _ _)
    | ok v =>
      rw [hv] at hgood
      simp only at hgood ⊢
      have hcode := replyOutcome_ok_code _ _ v hv
      obtain ⟨ih1, ih2⟩ := ih
        (if (setRequest L p zone rows r).Command = Command.UpdateRecords ∨ v.1.Code = 1000
          then updated ++ [r] else updated)
        (T.Do s (setRequest L p zone rows r)).2
        (fun ex hex => hgood ex (List.mem_cons_of_mem _ hex))
      refine ⟨by simp [ih1], ?_⟩
      rw [ih2]
      simp only [List.zip_cons_cons, List.filter_cons, hcode]
      by_cases hc : (setRequest L p zone rows r).Command = Command.UpdateRecords ∨
          v.1.Code = 1000
      · simp [hc]
      · simp [hc]

/-- SetRecords, with credentials: the fetch, then the loop over the snapshot. -/
theorem SetRecords_eq {σ : Type} (L : Lib) (T : Transport σ) (p : Provider) (s : σ)
    (zone : Str) (records : List (Record L.Addr))
    (h : p.Username ≠ [] ∧ p.Password ≠ []) :
    Provider.SetRecords L T p s zone records =
      match replyOutcome (T.Do s (listRequest p zone)).1 true with
      | .error e =>
        ⟨.error e, (T.Do s (listRequest p zone)).2,
          [(listRequest p zone, (T.Do s (listRequest p zone)).1)]⟩
      | .panic =>
        ⟨.panic, (T.Do s (listRequest p zone)).2,
          [(listRequest p zone, (T.Do s (listRequest p zone)).1)]⟩
      | .ok v =>
        ⟨(setLoop L T p zone (remoteMap v.2) records [] (T.Do s (listRequest p zone)).2).result,
          (setLoop L T p zone (remoteMap v.2) records [] (T.Do s (listRequest p zone)).2).state,
          (listRequest p zone, (T.Do s (listRequest p zone)).1) ::
            (setLoop L T p zone (remoteMap v.2) records []
              (T.Do s (listRequest p zone)).2).trace⟩ := by
  simp only [Provider.SetRecords, roundTrip_eq T p s _ _ _ _ h, listRequest]
  split <;> simp_all

theorem replyRows_of_ok (res : HttpResult) (v : response × List rowItem)
    (h : replyOutcome res true = .ok v) : replyRows res = v.2 := by
  simp [replyRows, h]

theorem lookup_filter_ne {β : Type} (l : List (recordKey × β)) (key k : recordKey) :
    (l.filter fun kv => kv.1 ≠ key).lookup k = if k = key then none else l.lookup k := by
  induction l with
  | nil => simp
  | cons kv l ih =>
    obtain ⟨a, b⟩ := kv
    by_cases ha : a = key
    · subst ha
      have hd : decide ((a, b).1 ≠ a) = false := by simp
      rw [List.filter_cons, hd]
      simp only [Bool.false_eq_true, if_false]
      rw [ih, List.lookup_cons]
      by_cases hk : k = a
      · simp [hk]
      · have hb : (k == a) = false := by simpa using hk
        simp [hk, hb]
    · have hd : decide ((a, b).1 ≠ key) = true := by simpa using ha
      rw [List.filter_cons, hd]
      simp only [if_true]
      rw [List.lookup_cons, List.lookup_cons, ih]
      by_cases hk : k = a
      · subst hk
        simp [ha]
      · have hb : (k == a) = false := by simpa using hk
        simp [hb]

theorem lookup_some_mem {β : Type} (l : List (recordKey × β)) (k : recordKey) (v : β)
    (h : l.lookup k = some v) : (k, v) ∈ l := by
  induction l with
  | nil => simp at h
  | cons kv l ih =>
    obtain ⟨a, b⟩ := kv
    rw [List.lookup_cons] at h
    by_cases hk : k = a
    · subst hk
      simp only [beq_self_eq_true, Option.some.injEq] at h
      subst h
      exact List.mem_cons_self _ _
    · have hb : (k == a) = false := by simpa using hk
      simp only [hb] at h
      exact List.mem_cons_of_mem _ (ih h)

theorem lookup_exists_iff {β : Type} (l : List (recordKey × β)) (k : recordKey) :
    (∃ v, l.lookup k = some v) ↔ k ∈ l.map fun kv => kv.1 := by
  induction l with
  | nil => simp
  | cons kv l ih =>
    obtain ⟨a, b⟩ := kv
    rw [List.lookup_cons]
    by_cases hk : k = a
    · subst hk
      simp
    · have hb : (k == a) = false := by simpa using hk
      simp only [hb, List.map_cons, List.mem_cons, hk, false_or]
      exact ih

/-- The first loop of DeleteRecords never fails: it inserts every record under its
encoded triple. -/
theorem wantedMap_ok (L : Lib) (zone : Str) (records : List (Record L.Addr)) :
    ∀ wanted : List (recordKey × Record L.Addr),
      wantedMap L zone records wanted =
        .ok ((records.map fun r => (encodedTriple L zone r, r)).reverse ++ wanted) := by
  induction records with
  | nil => intro wanted; simp [wantedMap]
  | cons r rest ih =>
    intro wanted
    rw [wantedMap]
    simp only [toWedosDNSRecord_encoded]
    rw [ih]
    simp [encodedTriple]

/-- A turn of the second loop of DeleteRecords on a row whose triple is not wanted. -/
theorem deleteLoop_cons_none {σ : Type} (L : Lib) (T : Transport σ) (p : Provider) (zone : Str)
    (row : rowItem) (rest : List rowItem) (wanted : List (recordKey × Record L.Addr))
    (deleted : List (Record L.Addr)) (s : σ) (h : wanted.lookup (tripleOf row) = none) :
    deleteLoop L T p zone (row :: rest) wanted deleted s =
      deleteLoop L T p zone rest wanted deleted s := by
  rw [deleteLoop]
  unfold tripleOf at h
  simp only [h]

/-- A turn of the second loop of DeleteRecords on a row whose triple is wanted, with
credentials. -/
theorem deleteLoop_cons_some {σ : Type} (L : Lib) (T : Transport σ) (p : Provider) (zone : Str)
    (hc : p.Username ≠ [] ∧ p.Password ≠ [])
    (row : rowItem) (rest : List rowItem) (wanted : List (recordKey × Record L.Addr))
    (deleted : List (Record L.Addr)) (s : σ) (rec : Record L.Addr)
    (h : wanted.lookup (tripleOf row) = some rec) :
    deleteLoop L T p zone (row :: rest) wanted deleted s =
      match replyOutcome (T.Do s (deleteRequest p zone row)).1 true with
      | .error e =>
        ⟨.error e, (T.Do s (deleteRequest p zone row)).2,
          [(deleteRequest p zone row, (T.Do s (deleteRequest p zone row)).1)]⟩
      | .panic =>
        ⟨.panic, (T.Do s (deleteRequest p zone row)).2,
          [(deleteRequest p zone row, (T.Do s (deleteRequest p zone row)).1)]⟩
      | .ok _ =>
        ⟨(deleteLoop L T p zone rest (wanted.filter fun kv => kv.1 ≠ tripleOf row)
            (deleted ++ [rec]) (T.Do s (deleteRequest p zone row)).2).result,
          (deleteLoop L T p zone rest (wanted.filter fun kv => kv.1 ≠ tripleOf row)
            (deleted ++ [rec]) (T.Do s (deleteRequest p zone row)).2).state,
          (deleteRequest p zone row, (T.Do s (deleteRequest p zone row)).1) ::
            (deleteLoop L T p zone rest (wanted.filter fun kv => kv.1 ≠ tripleOf row)
              (deleted ++ [rec]) (T.Do s (deleteRequest p zone row)).2).trace⟩ := by
  rw [deleteLoop]
  unfold tripleOf at h ⊢
  simp only [h, roundTrip_eq T p s _ _ _ _ hc, deleteRequest]
  split <;> simp_all

/-- Every row `firstMatching` selects has a triple among the keys that no earlier row
has. -/
theorem firstMatching_mem (keys : List recordKey) (rows : List rowItem) :
    ∀ earlier : List rowItem, ∀ x ∈ firstMatching keys earlier rows,
      x ∈ rows ∧ tripleOf x ∈ keys ∧ ∀ e ∈ earlier, tripleOf e ≠ tripleOf x := by
  induction rows with
  | nil => intro earlier x hx; simp [firstMatching] at hx
  | cons row rest ih =>
    intro earlier x hx
    rw [firstMatching] at hx
    split at hx
    · rename_i hsel
      rcases List.mem_cons.mp hx with rfl | hx'
      · exact ⟨List.mem_cons_self _ _, hsel.1, hsel.2⟩
      · obtain ⟨h1, h2, h3⟩ := ih (earlier ++ [row]) x hx'
        exact ⟨List.mem_cons_of_mem _ h1, h2,
          fun e he => h3 e (List.mem_append_left _ he)⟩
    · obtain ⟨h1, h2, h3⟩ := ih (earlier ++ [row]) x hx
      exact ⟨List.mem_cons_of_mem _ h1, h2, fun e he => h3 e (List.mem_append_left _ he)⟩

/-- The rows `firstMatching` selects have pairwise distinct triples. -/
theorem firstMatching_nodup (keys : List recordKey) (rows : List rowItem) :
    ∀ earlier : List rowItem, ((firstMatching keys earlier rows).map tripleOf).Nodup := by
  induction rows with
  | nil => intro earlier; simp [firstMatching]
  | cons row rest ih =>
    intro earlier
    rw [firstMatching]
    split
    · rw [List.map_cons, List.nodup_cons]
      refine ⟨?_, ih _⟩
      intro hmem
      obtain ⟨x, hx, hxe⟩ := List.mem_map.mp hmem
      obtain ⟨_, _, h3⟩ := firstMatching_mem keys rest (earlier ++ [row]) x hx
      exact h3 row (List.mem_append_right _ (List.mem_singleton.mpr rfl)) hxe.symm
    · exact ih _

theorem firstMatching_length_le (keys : List recordKey) (rows earlier : List rowItem) :
    (firstMatching keys earlier rows).length ≤ keys.length := by
  have hnd := firstMatching_nodup keys rows earlier
  have hsub : (firstMatching keys earlier rows).map tripleOf ⊆ keys := by
    intro k hk
    obtain ⟨x, hx, rfl⟩ := List.mem_map.mp hk
    exact (firstMatching_mem keys rows earlier x hx).2.1
  have := (List.subperm_of_subset hnd hsub).length_le
  simpa using this

/-- The second loop of DeleteRecords when no exchange fails: a delete request goes to
the rows `firstMatching` selects, and one record is reported for each. -/
theorem deleteLoop_spec {σ : Type} (L : Lib) (T : Transport σ) (p : Provider) (zone : Str)
    (hc : p.Username ≠ [] ∧ p.Password ≠ []) (records : List (Record L.Addr))
    (keys : List recordKey) (rows : List rowItem) :
    ∀ (wanted : List (recordKey × Record L.Addr)) (earlier : List rowItem)
      (deleted : List (Record L.Addr)) (s : σ),
      (∀ k, (∃ rec, wanted.lookup k = some rec) ↔ k ∈ keys ∧ ∀ e ∈ earlier, tripleOf e ≠ k) →
      (∀ k rec, wanted.lookup k = some rec → rec ∈ records ∧ encodedTriple L zone rec = k) →
      (∀ ex ∈ (deleteLoop L T p zone rows wanted deleted s).trace, noError ex = true) →
      (deleteLoop L T p zone rows wanted deleted s).trace.map (fun ex => ex.1) =
          (firstMatching keys earlier rows).map (deleteRequest p zone) ∧
        ∃ out, (deleteLoop L T p zone rows wanted deleted s).result = .ok (deleted ++ out) ∧
          List.Forall₂ (fun rec row => rec ∈ records ∧ encodedTriple L zone rec = tripleOf row)
            out (firstMatching keys earlier rows) := by
  induction rows with
  | nil =>
    intro wanted earlier deleted s _ _ _
    exact ⟨by simp [deleteLoop, firstMatching], [], by simp [deleteLoop],
      by simp [firstMatching]⟩
  | cons row rest ih =>
    intro wanted earlier deleted s hinv1 hinv2 hgood
    cases hl : wanted.lookup (tripleOf row) with
    | none =>
      rw [deleteLoop_cons_none L T p zone row rest wanted deleted s hl] at hgood ⊢
      have hnot : ¬(tripleOf row ∈ keys ∧ ∀ e ∈ earlier, tripleOf e ≠ tripleOf row) := by
        intro hsel
        obtain ⟨rec, hrec⟩ := (hinv1 (tripleOf row)).mpr hsel
        rw [hl] at hrec
        cases hrec
      rw [firstMatching, if_neg hnot]
      apply ih wanted (earlier ++ [row]) deleted s _ hinv2 hgood
      intro k
      constructor
      · rintro ⟨rec, hrec⟩
        obtain ⟨h1, h2⟩ := (hinv1 k).mp ⟨rec, hrec⟩
        refine ⟨h1, ?_⟩
        intro e he
        rcases List.mem_append.mp he with he | he
        · exact h2 e he
        · rw [List.mem_singleton.mp he]
          intro heq
          rw [heq, hrec] at hl
          cases hl
      · rintro ⟨h1, h2⟩
        exact (hinv1 k).mpr ⟨h1, fun e he => h2 e (List.mem_append_left _ he)⟩
    | some rec =>
      rw [deleteLoop_cons_some L T p zone hc row rest wanted deleted s rec hl] at hgood ⊢
      have hsel : tripleOf row ∈ keys ∧ ∀ e ∈ earlier, tripleOf e ≠ tripleOf row :=
        (hinv1 (tripleOf row)).mp ⟨rec, hl⟩
      rw [firstMatching, if_pos hsel]
      cases hv : replyOutcome (T.Do s (deleteRequest p zone row)).1 true with
      | error e =>
        rw [hv] at hgood
        have := hgood _ (List.mem_singleton.mpr rfl)
        have hr : readsData (deleteRequest p zone row) = true := rfl
        simp [noError, hr, hv] at this
      | panic => exact absurd hv (replyOutcome_not_panic _ _)
      | ok v =>
        rw [hv] at hgood
        simp only at hgood ⊢
        obtain ⟨ih1, out, ih2, ih3⟩ := ih (wanted.filter fun kv => kv.1 ≠ tripleOf row)
          (earlier ++ [row]) (deleted ++ [rec]) (T.Do s (deleteRequest p zone row)).2
          (by
            intro k
            rw [lookup_filter_ne]
            by_cases hk : k = tripleOf row
            · subst hk
              rw [if_pos rfl]
              constructor
              · rintro ⟨rec', h⟩
                cases h
              · rintro ⟨_, h2⟩
                exact absurd rfl
                  (h2 row (List.mem_append_right _ (List.mem_singleton.mpr rfl)))
            · simp only [hk, if_false]
              rw [hinv1 k]
              constructor
              · rintro ⟨h1, h2⟩
                refine ⟨h1, ?_⟩
                intro e he
                rcases List.mem_append.mp he with he | he
                · exact h2 e he
                · rw [List.mem_singleton.mp he]
                  exact fun heq => hk heq.symm
              · rintro ⟨h1, h2⟩
                exact ⟨h1, fun e he => h2 e (List.mem_append_left _ he)⟩)
          (by
            intro k rec' hrec'
            rw [lookup_filter_ne] at hrec'
            by_cases hk : k = tripleOf row
            · simp [hk] at hrec'
            · simp only [hk, if_false] at hrec'
              exact hinv2 k rec' hrec')
          (fun ex hex => hgood ex (List.mem_cons_of_mem _ hex))
        refine ⟨by rw [List.map_cons, List.map_cons, ih1], rec :: out, ?_, ?_⟩
        · rw [ih2, List.append_assoc]
          rfl
        · exact List.Forall₂.cons (hinv2 _ rec hl) ih3

/-- DeleteRecords, with credentials: the fetch, then the scan of the fetched rows for
the encoded triples of the records. -/
theorem DeleteRecords_eq {σ : Type} (L : Lib) (T : Transport σ) (p : Provider) (s : σ)
    (zone : Str) (records : List (Record L.Addr))
    (h : p.Username ≠ [] ∧ p.Password ≠ []) :
    Provider.DeleteRecords L T p s zone records =
      match replyOutcome (T.Do s (listRequest p zone)).1 true with
      | .error e =>
        ⟨.error e, (T.Do s (listRequest p zone)).2,
          [(listRequest p zone, (T.Do s (listRequest p zone)).1)]⟩
      | .panic =>
        ⟨.panic, (T.Do s (listRequest p zone)).2,
          [(listRequest p zone, (T.Do s (listRequest p zone)).1)]⟩
      | .ok v =>
        ⟨(deleteLoop L T p zone v.2
            ((records.map fun r => (encodedTriple L zone r, r)).reverse ++ []) []
            (T.Do s (listRequest p zone)).2).result,
          (deleteLoop L T p zone v.2
            ((records.map fun r => (encodedTriple L zone r, r)).reverse ++ []) []
            (T.Do s (listRequest p zone)).2).state,
          (listRequest p zone, (T.Do s (listRequest p zone)).1) ::
            (deleteLoop L T p zone v.2
              ((records.map fun r => (encodedTriple L zone r, r)).reverse ++ []) []
              (T.Do s (listRequest p zone)).2).trace⟩ := by
  simp only [Provider.DeleteRecords, roundTrip_eq T p s _ _ _ _ h, listRequest, wantedMap_ok]
  split <;> simp_all

theorem memoryZone_isStore : IsStore memoryZone fun s => s.1 := by
  constructor
  · intro s req zone v hd hv
    simp only [memoryZone, hd, replyOutcome, parseResponse] at hv
    simp only [true_and, if_true, Outcome.ok.injEq, OK] at hv
    rw [← hv]
  · intro s req w hd _
    simp only [memoryZone, hd]
    exact ⟨_, List.mem_append_right _ (List.mem_singleton.mpr rfl), rfl, rfl, rfl⟩
  · intro s req hnd row hrow
    cases hd : req.Data with
    | domain z =>
      simp only [memoryZone, hd]
      exact ⟨row, hrow, rfl, rfl⟩
    | record w =>
      simp only [memoryZone, hd]
      exact ⟨row, List.mem_append_left _ hrow, rfl, rfl⟩
    | update z row_id ttl rdata =>
      simp only [memoryZone, hd]
      refine ⟨_, List.mem_map_of_mem _ hrow, ?_, ?_⟩
      · split <;> rfl
      · split <;> rfl
    | delete z row_id => exact absurd hd (hnd z row_id)

/-- The request of the decision rule is never a delete. -/
theorem setRequest_not_delete (L : Lib) (p : Provider) (zone : Str) (rows : List rowItem)
    (r : Record L.Addr) (z row_id : Str) :
    (setRequest L p zone rows r).Data ≠ .delete z row_id := by
  unfold setRequest
  split <;> simp [updateRequest, createRequest]

/-- When every record has an occupant in the snapshot, the loop of SetRecords sends
update requests only. -/
theorem setLoop_only_updates {σ : Type} (L : Lib) (T : Transport σ) (p : Provider) (zone : Str)
    (h : p.Username ≠ [] ∧ p.Password ≠ []) (rows : List rowItem)
    (records : List (Record L.Addr)) :
    ∀ (updated : List (Record L.Addr)) (s : σ),
      (∀ r ∈ records, ∃ row ∈ rows,
        row.Name = (encoded L r zone).name ∧ row.Rdtype = (encoded L r zone).type) →
      ∀ ex ∈ (setLoop L T p zone (remoteMap rows) records updated s).trace,
        ex.1.Command = Command.UpdateRecords := by
  induction records with
  | nil => intro updated s _ ex hex; simp [setLoop] at hex
  | cons r rest ih =>
    intro updated s hocc ex hex
    rw [setLoop_cons L T p zone h] at hex
    obtain ⟨remote, hremote⟩ := (occupant_isSome_iff rows _ _).mpr
      (hocc r (List.mem_cons_self _ _))
    have hreq : (setRequest L p zone rows r).Command = Command.UpdateRecords := by
      simp [setRequest, hremote, updateRequest]
    have hrest := fun u s' => ih u s' (fun r' hr' => hocc r' (List.mem_cons_of_mem _ hr'))
    split at hex
    · rw [List.mem_singleton] at hex
      rw [hex]
      exact hreq
    · rw [List.mem_singleton] at hex
      rw [hex]
      exact hreq
    · rcases List.mem_cons.mp hex with rfl | hex'
      · exact hreq
      · exact hrest _ _ ex hex'

/-- Against a store, a run of the loop of SetRecords that ends without error and with
every create accepted keeps the name and type of every row there was, and leaves a row
with the encoded name and type of every record that had no occupant. -/
theorem setLoop_stores {σ : Type} (L : Lib) (T : Transport σ) (p : Provider) (zone : Str)
    (h : p.Username ≠ [] ∧ p.Password ≠ []) (rows : σ → List rowItem) (hstore : IsStore T rows)
    (snapshot : List rowItem) (records : List (Record L.Addr)) :
    ∀ (updated : List (Record L.Addr)) (s : σ),
      (∃ out, (setLoop L T p zone (remoteMap snapshot) records updated s).result = .ok out) →
      (∀ ex ∈ (setLoop L T p zone (remoteMap snapshot) records updated s).trace,
        ex.1.Command = Command.AppendRecords → replyCode ex.2 = some 1000) →
      (∀ row ∈ rows s,
        ∃ kept ∈ rows (setLoop L T p zone (remoteMap snapshot) records updated s).state,
          kept.Name = row.Name ∧ kept.Rdtype = row.Rdtype) ∧
      ∀ r ∈ records,
        (∃ row ∈ snapshot,
          row.Name = (encoded L r zone).name ∧ row.Rdtype = (encoded L r zone).type) ∨
        ∃ row ∈ rows (setLoop L T p zone (remoteMap snapshot) records updated s).state,
          row.Name = (encoded L r zone).name ∧ row.Rdtype = (encoded L r zone).type := by
  induction records with
  | nil =>
    intro updated s _ _
    exact ⟨fun row hrow => ⟨row, by simpa [setLoop] using hrow, rfl, rfl⟩,
      fun r hr => by cases hr⟩
  | cons r rest ih =>
    intro updated s hok hacc
    rw [setLoop_cons L T p zone h] at hok hacc ⊢
    cases hv : replyOutcome (T.Do s (setRequest L p zone snapshot r)).1
        (readsData (setRequest L p zone snapshot r)) with
    | error e =>
      rw [hv] at hok
      obtain ⟨out, hout⟩ := hok
      cases hout
    | panic => exact absurd hv (replyOutcome_not_panic _ _)
    | ok v =>
      rw [hv] at hok hacc
      simp only at hok hacc ⊢
      obtain ⟨ihkeep, ihrec⟩ := ih _ (T.Do s (setRequest L p zone snapshot r)).2 hok
        (fun ex hex => hacc ex (List.mem_cons_of_mem _ hex))
      have hstep := hstore.keep s (setRequest L p zone snapshot r)
        (fun z row_id => setRequest_not_delete L p zone snapshot r z row_id)
      refine ⟨?_, ?_⟩
      · intro row hrow
        obtain ⟨k1, hk1, hn1, ht1⟩ := hstep row hrow
        obtain ⟨k2, hk2, hn2, ht2⟩ := ihkeep k1 hk1
        exact ⟨k2, hk2, hn2.trans hn1, ht2.trans ht1⟩
      · intro r' hr'
        rcases List.mem_cons.mp hr' with rfl | hr''
        · cases hocc : occupant snapshot (encoded L r' zone).name (encoded L r' zone).type with
          | some remote =>
            left
            exact (occupant_isSome_iff snapshot _ _).mp ⟨remote, hocc⟩
          | none =>
            right
            have hreq : setRequest L p zone snapshot r' = createRequest L p zone r' := by
              simp [setRequest, hocc]
            have hcode := hacc _ (List.mem_cons_self _ _) (by rw [hreq]; rfl)
            simp only at hcode
            rw [hreq] at hcode ihkeep ⊢
            obtain ⟨row, hrow, hn, ht, _⟩ := hstore.create s (createRequest L p zone r')
              (encoded L r' zone) rfl hcode
            obtain ⟨k2, hk2, hn2, ht2⟩ := ihkeep row hrow
            exact ⟨k2, hk2, hn2.trans hn, ht2.trans ht⟩
        · exact ihrec r' hr''

/-- SetRecords without credentials: the credentials error, before any exchange. -/
theorem SetRecords_no_credentials {σ : Type} (L : Lib) (T : Transport σ) (p : Provider)
    (s : σ) (zone : Str) (records : List (Record L.Addr))
    (h : p.Username = [] ∨ p.Password = []) :
    (Provider.SetRecords L T p s zone records).result = .error .credentials := by
  simp [Provider.SetRecords, roundTrip_credentials T p s _ _ _ _ h]

/-- The name of a record decoded from a row that is not of type SRV is the row's name,
normalised. -/
theorem toLibDNSRecord_rrName (L : Lib) (row : rowItem) (r : Record L.Addr)
    (h : toLibDNSRecord L row = .ok r) (hs : recordType L row ≠ SRVRecord) :
    r.rrName L = if TrimSpace row.Name = [] then "@".toList else TrimSpace row.Name := by
  cases hn : Atoi row.TTL with
  | none => rw [toLibDNSRecord_ttl_error L row hn] at h; cases h
  | some n =>
    by_cases hA : recordType L row = ARecord ∨ recordType L row = AAAARecord
    · rw [toLibDNSRecord_addr L row n hn hA] at h
      cases hp : L.ParseAddr (TrimSpace row.Rdata) with
      | none => rw [hp] at h; cases h
      | some ip =>
        rw [hp] at h
        cases h
        rfl
    · by_cases hC : recordType L row = CNAMERecord
      · rw [toLibDNSRecord_cname L row n hn hC] at h
        cases h
        rfl
      · by_cases hT : recordType L row = TXTRecord
        · rw [toLibDNSRecord_txt L row n hn hT] at h
          cases h
          rfl
        · have hnot : recordType L row ∉
              [ARecord, AAAARecord, CNAMERecord, TXTRecord, SRVRecord] := by
            simp only [List.mem_cons, List.mem_singleton, List.not_mem_nil, or_false, not_or]
            exact ⟨fun e => hA (Or.inl e), fun e => hA (Or.inr e), hC, hT, hs⟩
          rw [toLibDNSRecord_generic L row n hn hnot] at h
          cases h
          rfl

/-- A row name without white space at its ends, other than `@`, is the encoded name of
the record the row decodes to. -/
theorem encoded_name_of_decoded (n : Str) (h1 : TrimSpace n = n) (h2 : n ≠ "@".toList) :
    (if TrimSpace (if TrimSpace n = [] then "@".toList else TrimSpace n) = "@".toList then []
      else TrimSpace (if TrimSpace n = [] then "@".toList else TrimSpace n)) = n := by
  rw [h1]
  by_cases hn : n = []
  · rw [if_pos hn, if_pos (by decide), hn]
  · rw [if_neg hn, h1, if_neg h2]

/-- SetRecords for one record that has an occupant in the fetched snapshot: the listing,
then the update of the occupant. -/
theorem SetRecords_single_update {σ : Type} (L : Lib) (T : Transport σ) (p : Provider) (s : σ)
    (zone : Str) (r : Record L.Addr) (hcred : p.Username ≠ [] ∧ p.Password ≠ [])
    (v : response × List rowItem)
    (hv : replyOutcome (T.Do s (listRequest p zone)).1 true = .ok v) (remote : rowItem)
    (hocc : occupant v.2 (encoded L r zone).name (encoded L r zone).type = some remote) :
    (Provider.SetRecords L T p s zone [r]).trace.map (fun ex => ex.1) =
      [listRequest p zone,
        updateRequest p zone remote.ID (encoded L r zone).ttl (encoded L r zone).rdata] := by
  rw [SetRecords_eq L T p s zone [r] hcred, hv]
  simp only
  rw [setLoop_cons L T p zone hcred]
  have hreq : setRequest L p zone v.2 r =
      updateRequest p zone remote.ID (encoded L r zone).ttl (encoded L r zone).rdata := by
    simp [setRequest, hocc]
  rw [hreq]
  split <;> simp [setLoop]

/-- A listing that decodes has one record per row. -/
theorem decodeRows_length (L : Lib) (rows : List rowItem) :
    ∀ recs, decodeRows L rows = .ok recs → recs.length = rows.length := by
  induction rows with
  | nil =>
    intro recs h
    simp only [decodeRows, Outcome.ok.injEq] at h
    rw [← h]
    rfl
  | cons row rest ih =>
    intro recs h
    rw [decodeRows_cons] at h
    cases h1 : toLibDNSRecord L row with
    | error e => rw [h1] at h; cases h
    | panic => rw [h1] at h; cases h
    | ok r =>
      cases h2 : decodeRows L rest with
      | error e => rw [h1, h2] at h; cases h
      | panic => rw [h1, h2] at h; cases h
      | ok rs =>
        rw [h1, h2] at h
        simp only [Outcome.bind, Outcome.ok.injEq] at h
        rw [← h, List.length_cons, List.length_cons, ih rs h2]

/-- GetRecords, with credentials: the fetch, then the decoding of the fetched rows. -/
theorem GetRecords_eq {σ : Type} (L : Lib) (T : Transport σ) (p : Provider) (s : σ)
    (zone : Str) (h : p.Username ≠ [] ∧ p.Password ≠ []) :
    Provider.GetRecords L T p s zone =
      match replyOutcome (T.Do s (listRequest p zone)).1 true with
      | .error e =>
        ⟨.error e, (T.Do s (listRequest p zone)).2,
          [(listRequest p zone, (T.Do s (listRequest p zone)).1)]⟩
      | .panic =>
        ⟨.panic, (T.Do s (listRequest p zone)).2,
          [(listRequest p zone, (T.Do s (listRequest p zone)).1)]⟩
      | .ok v =>
        ⟨decodeRows L v.2, (T.Do s (listRequest p zone)).2,
          [(listRequest p zone, (T.Do s (listRequest p zone)).1)]⟩ := by
  simp only [Provider.GetRecords, roundTrip_eq T p s _ _ _ _ h, listRequest]
  split <;> simp_all

/-- GetRecords, with credentials, on a listing that yields rows: the result is the
decoding of those rows. -/
theorem GetRecords_result {σ : Type} (L : Lib) (T : Transport σ) (p : Provider) (s : σ)
    (zone : Str) (h : p.Username ≠ [] ∧ p.Password ≠ []) (row : rowItem)
    (hrow : row ∈ replyRows (T.Do s (listRequest p zone)).1) :
    (Provider.GetRecords L T p s zone).result =
      decodeRows L (replyRows (T.Do s (listRequest p zone)).1) := by
  rw [GetRecords_eq L T p s zone h]
  cases hv : replyOutcome (T.Do s (listRequest p zone)).1 true with
  | error e => simp [replyRows, hv] at hrow
  | panic => exact absurd hv (replyOutcome_not_panic _ _)
  | ok v => rw [replyRows_of_ok _ v hv]

/-! ## The claims on the operations -/

/-- C10: a row with a numeric ttl whose type, trimmed and upper-cased, is none of A,
AAAA, CNAME, TXT, SRV decodes to the generic record whose name is the row's name
normalised (`@` for an empty or blank name, the trimmed name otherwise), whose type tag
is the row's type unmodified and whose data is the row's data unmodified. Hence
GetRecords never drops such a row: whenever the listing it fetches holds the row, its
result is that of the rows before, then this record, then that of the rows after; so
when it returns a list, the list has one record per fetched row and this record at the
row's position. -/
theorem C10_generic_fallback (L : Lib) (row : rowItem) (ttl : Int)
    (httl : Atoi row.TTL = some ttl) (htype : recordType L row ∉ decodedTypes) :
    toLibDNSRecord L row =
        .ok (.RR ⟨if TrimSpace row.Name = [] then "@".toList else TrimSpace row.Name,
          secondsToDuration ttl, row.Rdtype, row.Rdata⟩) ∧
      ∀ (σ : Type) (T : Transport σ) (p : Provider) (s : σ) (zone : Str)
        (pre post : List rowItem),
        p.Username ≠ [] ∧ p.Password ≠ [] →
        replyRows (T.Do s (listRequest p zone)).1 = pre ++ row :: post →
        (Provider.GetRecords L T p s zone).result =
            ((decodeRows L pre).bind fun a => (decodeRows L post).bind fun b =>
              .ok (a ++ .RR ⟨if TrimSpace row.Name = [] then "@".toList
                  else TrimSpace row.Name,
                secondsToDuration ttl, row.Rdtype, row.Rdata⟩ :: b)) ∧
          ∀ recs, (Provider.GetRecords L T p s zone).result = .ok recs →
            recs.length = (pre ++ row :: post).length ∧
            recs.get? pre.length =
              some (.RR ⟨if TrimSpace row.Name = [] then "@".toList else TrimSpace row.Name,
                secondsToDuration ttl, row.Rdtype, row.Rdata⟩) := by
  have hrow := toLibDNSRecord_generic L row ttl httl htype
  refine ⟨hrow, ?_⟩
  intro σ T p s zone pre post hcred hfetch
  have hres := GetRecords_result L T p s zone hcred row
    (by rw [hfetch]; exact List.mem_append_right _ (List.mem_cons_self _ _))
  rw [hfetch] at hres
  have hform : decodeRows L (pre ++ row :: post) =
      ((decodeRows L pre).bind fun a => (decodeRows L post).bind fun b =>
        .ok (a ++ .RR ⟨if TrimSpace row.Name = [] then "@".toList else TrimSpace row.Name,
          secondsToDuration ttl, row.Rdtype, row.Rdata⟩ :: b)) := by
    rw [decodeRows_append, decodeRows_cons, hrow]
    cases decodeRows L pre <;> cases decodeRows L post <;> simp [Outcome.bind]
  refine ⟨hres.trans hform, ?_⟩
  intro recs hrecs
  rw [hres] at hrecs
  refine ⟨decodeRows_length L _ recs hrecs, ?_⟩
  rw [hform] at hrecs
  cases ha : decodeRows L pre with
  | error e => rw [ha] at hrecs; cases hrecs
  | panic => rw [ha] at hrecs; cases hrecs
  | ok a =>
    cases hb : decodeRows L post with
    | error e => rw [ha, hb] at hrecs; cases hrecs
    | panic => rw [ha, hb] at hrecs; cases hrecs
    | ok b =>
      rw [ha, hb] at hrecs
      simp only [Outcome.bind, Outcome.ok.injEq] at hrecs
      rw [← hrecs, ← decodeRows_length L pre a ha, List.get?_eq_getElem?,
        List.getElem?_append_right (Nat.le_refl _), Nat.sub_self]
      exact List.getElem?_cons_zero

/-- C10, witness: an `mx` row with an empty name, listed after an address row by an
in-memory zone: it decodes to the generic record at the apex, and GetRecords returns
both records. -/
theorem C10_generic_fallback_witness :
    toLibDNSRecord ipv4Lib
        ⟨"7".toList, [], "3600".toList, "mx".toList, "10 mail.example.com".toList, [], []⟩ =
      .ok (.RR ⟨"@".toList, 3600000000000, "mx".toList, "10 mail.example.com".toList⟩) ∧
    (Provider.GetRecords ipv4Lib memoryZone ⟨"user".toList, "secret".toList⟩
        ([⟨"1".toList, "www".toList, "300".toList, "A".toList, "1.2.3.4".toList, [], []⟩,
          ⟨"7".toList, [], "3600".toList, "mx".toList, "10 mail.example.com".toList, [],
            []⟩], 8)
        "example.com".toList).result =
      .ok [.Address "www".toList (1, 2, 3, 4) 300000000000,
        .RR ⟨"@".toList, 3600000000000, "mx".toList, "10 mail.example.com".toList⟩] :=
  have h := C10_generic_fallback ipv4Lib
    ⟨"7".toList, [], "3600".toList, "mx".toList, "10 mail.example.com".toList, [], []⟩ 3600
    (by decide) (by decide)
  ⟨h.1,
    (h.2 _ memoryZone ⟨"user".toList, "secret".toList⟩
      ([⟨"1".toList, "www".toList, "300".toList, "A".toList, "1.2.3.4".toList, [], []⟩,
        ⟨"7".toList, [], "3600".toList, "mx".toList, "10 mail.example.com".toList, [],
          []⟩], 8)
      "example.com".toList
      [⟨"1".toList, "www".toList, "300".toList, "A".toList, "1.2.3.4".toList, [], []⟩] []
      (by decide) (by decide)).1⟩

/-- C11: when no exchange fails, SetRecords sends the list-rows request and then, for
each desired record in input order, exactly one mutating request: an update of the
occupant of the record's encoded name and type in the fetched snapshot, carrying the
zone, that row's id, the new ttl and the new data, when there is an occupant, and a
create carrying the encoded record otherwise. It returns the records that were
updated or whose create was answered with code 1000. -/
theorem C11_set_decision_rule {σ : Type} (L : Lib) (T : Transport σ) (p : Provider) (s : σ)
    (zone : Str) (records : List (Record L.Addr))
    (hcred : p.Username ≠ [] ∧ p.Password ≠ [])
    (hgood : ∀ ex ∈ (Provider.SetRecords L T p s zone records).trace, noError ex = true) :
    (Provider.SetRecords L T p s zone records).trace.map (fun ex => ex.1) =
        listRequest p zone ::
          records.map (setRequest L p zone (replyRows (T.Do s (listRequest p zone)).1)) ∧
      (Provider.SetRecords L T p s zone records).result =
        .ok (((records.zip (Provider.SetRecords L T p s zone records).trace.tail).filter
          fun x => x.2.1.Command = Command.UpdateRecords ∨
            replyCode x.2.2 = some 1000).map fun x => x.1) := by
  rw [SetRecords_eq L T p s zone records hcred] at hgood ⊢
  cases hv : replyOutcome (T.Do s (listRequest p zone)).1 true with
  | error e =>
    rw [hv] at hgood
    have := hgood _ (List.mem_singleton.mpr rfl)
    have hr : readsData (listRequest p zone) = true := rfl
    simp [noError, hr, hv] at this
  | panic => exact absurd hv (replyOutcome_not_panic _ _)
  | ok v =>
    rw [hv] at hgood
    simp only at hgood ⊢
    rw [replyRows_of_ok _ v hv]
    obtain ⟨h1, h2⟩ := setLoop_spec L T p zone hcred v.2 records []
      (T.Do s (listRequest p zone)).2 (fun ex hex => hgood ex (List.mem_cons_of_mem _ hex))
    refine ⟨by simp [h1], ?_⟩
    rw [h2]
    simp

/-- C11, witness: the scenario with the remote row `1` for `www` of type A and the
desired address `www` 1.2.3.4: one update with row id `1` and data `1.2.3.4` is sent
after the listing, and the record is returned. -/
theorem C11_set_decision_rule_witness :
    (Provider.SetRecords ipv4Lib memoryZone ⟨"user".toList, "secret".toList⟩
        ([⟨"1".toList, "www".toList, "300".toList, "A".toList, "1.2.3.4".toList, [], []⟩], 2)
        "example.com".toList
        [.Address "www".toList (1, 2, 3, 4) (seconds 600)]).trace.map (fun ex => ex.1) =
      [⟨"user".toList, "dns-rows-list".toList, "GetRecords".toList,
          .domain "example.com".toList⟩,
        ⟨"user".toList, "dns-row-update".toList, "UpdateRecords".toList,
          .update "example.com".toList "1".toList "600000000000".toList "1.2.3.4".toList⟩] ∧
    (Provider.SetRecords ipv4Lib memoryZone ⟨"user".toList, "secret".toList⟩
        ([⟨"1".toList, "www".toList, "300".toList, "A".toList, "1.2.3.4".toList, [], []⟩], 2)
        "example.com".toList
        [.Address "www".toList (1, 2, 3, 4) (seconds 600)]).result =
      .ok [.Address "www".toList (1, 2, 3, 4) (seconds 600)] :=
  C11_set_decision_rule ipv4Lib memoryZone ⟨"user".toList, "secret".toList⟩
    ([⟨"1".toList, "www".toList, "300".toList, "A".toList, "1.2.3.4".toList, [], []⟩], 2)
    "example.com".toList [.Address "www".toList (1, 2, 3, 4) (seconds 600)]
    (by decide) (by decide)

/-- C12 (code bug): an update answered with code 2000 and a delete answered with code
2000 are both reported as done: SetRecords returns the record as updated and
DeleteRecords returns it as deleted, neither returns an error. -/
theorem C12_rejected_mutation_reported :
    Provider.SetRecords ipv4Lib scripted ⟨"user".toList, "secret".toList⟩
        [.body (some ⟨1000, some (.valid
            [⟨"1".toList, "www".toList, "300".toList, "A".toList, "1.2.3.4".toList, [], []⟩])⟩),
          .body (some ⟨2000, none⟩)]
        "example.com".toList [.Address "www".toList (1, 2, 3, 4) (seconds 600)] =
      ⟨.ok [.Address "www".toList (1, 2, 3, 4) (seconds 600)], [],
        [(⟨"user".toList, "dns-rows-list".toList, "GetRecords".toList,
            .domain "example.com".toList⟩,
          .body (some ⟨1000, some (.valid
            [⟨"1".toList, "www".toList, "300".toList, "A".toList, "1.2.3.4".toList, [],
              []⟩])⟩)),
          (⟨"user".toList, "dns-row-update".toList, "UpdateRecords".toList,
            .update "example.com".toList "1".toList "600000000000".toList "1.2.3.4".toList⟩,
          .body (some ⟨2000, none⟩))]⟩ ∧
    Provider.DeleteRecords ipv4Lib scripted ⟨"user".toList, "secret".toList⟩
        [.body (some ⟨1000, some (.valid
            [⟨"1".toList, "www".toList, "300".toList, "A".toList, "1.2.3.4".toList, [], []⟩])⟩),
          .body (some ⟨2000, none⟩)]
        "example.com".toList [.Address "www".toList (1, 2, 3, 4) (seconds 600)] =
      ⟨.ok [.Address "www".toList (1, 2, 3, 4) (seconds 600)], [],
        [(⟨"user".toList, "dns-rows-list".toList, "GetRecords".toList,
            .domain "example.com".toList⟩,
          .body (some ⟨1000, some (.valid
            [⟨"1".toList, "www".toList, "300".toList, "A".toList, "1.2.3.4".toList, [],
              []⟩])⟩)),
          (⟨"user".toList, "dns-row-delete".toList, "DeleteRecords".toList,
            .delete "example.com".toList "1".toList⟩,
          .body (some ⟨2000, none⟩))]⟩ := by
  decide

/-- C13 (code bug): when the list-rows call is answered with code 2000, GetRecords
returns the empty list without error, SetRecords goes on to send a create for the
desired record, and DeleteRecords returns the empty list without error. -/
theorem C13_rejected_read_not_reported :
    Provider.GetRecords ipv4Lib scripted ⟨"user".toList, "secret".toList⟩
        [.body (some ⟨2000, none⟩)] "example.com".toList =
      ⟨.ok [], [],
        [(⟨"user".toList, "dns-rows-list".toList, "GetRecords".toList,
            .domain "example.com".toList⟩, .body (some ⟨2000, none⟩))]⟩ ∧
    (Provider.SetRecords ipv4Lib scripted ⟨"user".toList, "secret".toList⟩
        [.body (some ⟨2000, none⟩), .body (some ⟨1000, none⟩)] "example.com".toList
        [.Address "www".toList (1, 2, 3, 4) (seconds 600)]).trace.map (fun ex => ex.1) =
      [⟨"user".toList, "dns-rows-list".toList, "GetRecords".toList,
          .domain "example.com".toList⟩,
        ⟨"user".toList, "dns-row-add".toList, "AppendRecords".toList,
          .record ⟨"example.com".toList, "www".toList, "600000000000".toList, "A".toList,
            "1.2.3.4".toList⟩⟩] ∧
    (Provider.DeleteRecords ipv4Lib scripted ⟨"user".toList, "secret".toList⟩
        [.body (some ⟨2000, none⟩)] "example.com".toList
        [.Address "www".toList (1, 2, 3, 4) (seconds 600)]).result = .ok [] := by
  decide

/-- C14: when no exchange fails, AppendRecords sends exactly one create request per
input record, in input order, each carrying the encoded record, and returns exactly the
input records whose create was answered with code 1000, in input order; the others
are left out without an error. -/
theorem C14_append_semantics {σ : Type} (L : Lib) (T : Transport σ) (p : Provider) (s : σ)
    (zone : Str) (records : List (Record L.Addr))
    (hcred : p.Username ≠ [] ∧ p.Password ≠ [])
    (hgood : ∀ ex ∈ (Provider.AppendRecords L T p s zone records).trace, noError ex = true) :
    (Provider.AppendRecords L T p s zone records).trace.map (fun ex => ex.1) =
        records.map (createRequest L p zone) ∧
      (Provider.AppendRecords L T p s zone records).result =
        .ok (((records.zip (Provider.AppendRecords L T p s zone records).trace).filter
          fun x => replyCode x.2.2 = some 1000).map fun x => x.1) := by
  have := appendLoop_spec L T p zone hcred records [] s hgood
  simpa [Provider.AppendRecords] using this

/-- C14, witness: the scenario of a single TXT record at the apex, answered with code
1000: the one create call carries the name `""` and the data `v=spf1 -all`, and the
record is returned. -/
theorem C14_append_semantics_witness :
    (Provider.AppendRecords ipv4Lib scripted ⟨"user".toList, "secret".toList⟩
        [.body (some ⟨1000, none⟩)] "example.com".toList
        [.TXT "@".toList "v=spf1 -all".toList (seconds 3600)]).trace.map (fun ex => ex.1) =
      [⟨"user".toList, "dns-row-add".toList, "AppendRecords".toList,
        .record ⟨"example.com".toList, [], "3600000000000".toList, "TXT".toList,
          "v=spf1 -all".toList⟩⟩] ∧
    (Provider.AppendRecords ipv4Lib scripted ⟨"user".toList, "secret".toList⟩
        [.body (some ⟨1000, none⟩)] "example.com".toList
        [.TXT "@".toList "v=spf1 -all".toList (seconds 3600)]).result =
      .ok [.TXT "@".toList "v=spf1 -all".toList (seconds 3600)] :=
  C14_append_semantics ipv4Lib scripted ⟨"user".toList, "secret".toList⟩
    [.body (some ⟨1000, none⟩)] "example.com".toList
    [.TXT "@".toList "v=spf1 -all".toList (seconds 3600)] (by decide) (by decide)

/-- C15: when no exchange fails, DeleteRecords sends the list-rows request and then a
delete request to exactly the fetched rows that are the first, in the order returned,
with their (name, type, data) triple, among the rows whose triple is the encoded triple
of a desired record. These rows have pairwise distinct triples; no error is returned;
one input record with the row's triple is reported for each deleted row, so no more
records are reported than were given. -/
theorem C15_delete_matching {σ : Type} (L : Lib) (T : Transport σ) (p : Provider) (s : σ)
    (zone : Str) (records : List (Record L.Addr))
    (hcred : p.Username ≠ [] ∧ p.Password ≠ [])
    (hgood : ∀ ex ∈ (Provider.DeleteRecords L T p s zone records).trace, noError ex = true) :
    (Provider.DeleteRecords L T p s zone records).trace.map (fun ex => ex.1) =
        listRequest p zone ::
          (firstMatching (records.map (encodedTriple L zone)) []
            (replyRows (T.Do s (listRequest p zone)).1)).map (deleteRequest p zone) ∧
      ((firstMatching (records.map (encodedTriple L zone)) []
        (replyRows (T.Do s (listRequest p zone)).1)).map tripleOf).Nodup ∧
      ∃ deleted, (Provider.DeleteRecords L T p s zone records).result = .ok deleted ∧
        List.Forall₂ (fun rec row => rec ∈ records ∧ encodedTriple L zone rec = tripleOf row)
          deleted (firstMatching (records.map (encodedTriple L zone)) []
            (replyRows (T.Do s (listRequest p zone)).1)) ∧
        deleted.length ≤ records.length := by
  rw [DeleteRecords_eq L T p s zone records hcred] at hgood ⊢
  cases hv : replyOutcome (T.Do s (listRequest p zone)).1 true with
  | error e =>
    rw [hv] at hgood
    have := hgood _ (List.mem_singleton.mpr rfl)
    have hr : readsData (listRequest p zone) = true := rfl
    simp [noError, hr, hv] at this
  | panic => exact absurd hv (replyOutcome_not_panic _ _)
  | ok v =>
    rw [hv] at hgood
    simp only at hgood ⊢
    rw [replyRows_of_ok _ v hv]
    obtain ⟨h1, out, h2, h3⟩ := deleteLoop_spec L T p zone hcred records
      (records.map (encodedTriple L zone)) v.2
      ((records.map fun r => (encodedTriple L zone r, r)).reverse ++ []) [] []
      (T.Do s (listRequest p zone)).2
      (by
        intro k
        rw [lookup_exists_iff]
        simp only [List.append_nil, List.map_reverse, List.map_map, List.mem_reverse,
          List.not_mem_nil, false_implies, implies_true, and_true]
        rfl)
      (by
        intro k rec hrec
        have hm := lookup_some_mem _ _ _ hrec
        simp only [List.append_nil, List.mem_reverse, List.mem_map, Prod.mk.injEq] at hm
        obtain ⟨r, hr, hk, hrr⟩ := hm
        subst hrr
        exact ⟨hr, hk⟩)
      (fun ex hex => hgood ex (List.mem_cons_of_mem _ hex))
    refine ⟨by rw [List.map_cons, h1], firstMatching_nodup _ _ _, out, ?_, h3, ?_⟩
    · rw [h2]
      rfl
    · rw [h3.length_eq]
      have := firstMatching_length_le (records.map (encodedTriple L zone)) v.2 []
      simpa using this

/-- C15, witness: a zone with two rows holding the same triple and a third row; the
address asked for is deleted once, through the first of the two rows, and the TXT
record asked for, which matches no row, causes no error. -/
theorem C15_delete_matching_witness :
    (Provider.DeleteRecords ipv4Lib memoryZone ⟨"user".toList, "secret".toList⟩
        ([⟨"1".toList, "www".toList, "300".toList, "A".toList, "1.2.3.4".toList, [], []⟩,
          ⟨"2".toList, "www".toList, "600".toList, "A".toList, "1.2.3.4".toList, [], []⟩,
          ⟨"3".toList, "mail".toList, "300".toList, "A".toList, "1.2.3.5".toList, [], []⟩], 4)
        "example.com".toList
        [.Address "www".toList (1, 2, 3, 4) (seconds 300),
          .TXT "@".toList "v=spf1 -all".toList (seconds 3600)]).trace.map (fun ex => ex.1) =
      [⟨"user".toList, "dns-rows-list".toList, "GetRecords".toList,
          .domain "example.com".toList⟩,
        ⟨"user".toList, "dns-row-delete".toList, "DeleteRecords".toList,
          .delete "example.com".toList "1".toList⟩] ∧
    ([tripleOf
        ⟨"1".toList, "www".toList, "300".toList, "A".toList, "1.2.3.4".toList, [], []⟩]).Nodup ∧
    ∃ deleted,
      (Provider.DeleteRecords ipv4Lib memoryZone ⟨"user".toList, "secret".toList⟩
        ([⟨"1".toList, "www".toList, "300".toList, "A".toList, "1.2.3.4".toList, [], []⟩,
          ⟨"2".toList, "www".toList, "600".toList, "A".toList, "1.2.3.4".toList, [], []⟩,
          ⟨"3".toList, "mail".toList, "300".toList, "A".toList, "1.2.3.5".toList, [], []⟩], 4)
        "example.com".toList
        [.Address "www".toList (1, 2, 3, 4) (seconds 300),
          .TXT "@".toList "v=spf1 -all".toList (seconds 3600)]).result = .ok deleted ∧
      List.Forall₂
        (fun rec row =>
          rec ∈ [Record.Address "www".toList (1, 2, 3, 4) (seconds 300),
            .TXT "@".toList "v=spf1 -all".toList (seconds 3600)] ∧
          encodedTriple ipv4Lib "example.com".toList rec = tripleOf row)
        deleted
        [⟨"1".toList, "www".toList, "300".toList, "A".toList, "1.2.3.4".toList, [], []⟩] ∧
      deleted.length ≤ 2 :=
  C15_delete_matching ipv4Lib memoryZone ⟨"user".toList, "secret".toList⟩
    ([⟨"1".toList, "www".toList, "300".toList, "A".toList, "1.2.3.4".toList, [], []⟩,
      ⟨"2".toList, "www".toList, "600".toList, "A".toList, "1.2.3.4".toList, [], []⟩,
      ⟨"3".toList, "mail".toList, "300".toList, "A".toList, "1.2.3.5".toList, [], []⟩], 4)
    "example.com".toList
    [.Address "www".toList (1, 2, 3, 4) (seconds 300),
      .TXT "@".toList "v=spf1 -all".toList (seconds 3600)]
    (by decide) (by decide)

/-- The zone `flakyZone` is a store in the sense of the idempotence property: a create
answered with code 1000 leaves a row with the name, type and data sent, and no call
other than a delete removes a row or changes its name or type. -/
theorem flakyZone_stores :
    (∀ s req w, req.Data = .record w → replyCode (flakyZone.Do s req).1 = some 1000 →
      ∃ row ∈ (flakyZone.Do s req).2.1.1,
        row.Name = w.name ∧ row.Rdtype = w.type ∧ row.Rdata = w.rdata) ∧
    ∀ s req, (∀ zone row_id, req.Data ≠ .delete zone row_id) →
      ∀ row ∈ s.1.1, ∃ kept ∈ (flakyZone.Do s req).2.1.1,
        kept.Name = row.Name ∧ kept.Rdtype = row.Rdtype := by
  constructor
  · intro s req w hd _
    simp only [flakyZone, memoryZone, hd]
    exact ⟨_, List.mem_append_right _ (List.mem_singleton.mpr rfl), rfl, rfl, rfl⟩
  · intro s req hnd row hrow
    cases hd : req.Data with
    | domain z =>
      simp only [flakyZone, hd]
      split
      · exact ⟨row, hrow, rfl, rfl⟩
      · exact ⟨row, hrow, rfl, rfl⟩
    | record w =>
      simp only [flakyZone, memoryZone, hd]
      exact ⟨row, List.mem_append_left _ hrow, rfl, rfl⟩
    | update z row_id ttl rdata =>
      simp only [flakyZone, memoryZone, hd]
      refine ⟨_, List.mem_map_of_mem _ hrow, ?_, ?_⟩
      · split <;> rfl
      · split <;> rfl
    | delete z row_id => exact absurd hd (hnd z row_id)

/-- C16 (code bug): a store that keeps what is created and answers the first
listing, but rejects the second with code 2000. The first SetRecords for the address
`www` ends without error, its one create accepted with code 1000 and the row stored;
the second SetRecords for the same record takes the rejected listing for an empty zone
and sends a create again, which leaves two rows `www` of type A. -/
theorem C16_second_run_creates :
    Provider.SetRecords ipv4Lib flakyZone ⟨"user".toList, "secret".toList⟩ (([], 1), false)
        "example.com".toList [.Address "www".toList (1, 2, 3, 4) (seconds 600)] =
      ⟨.ok [.Address "www".toList (1, 2, 3, 4) (seconds 600)],
        (([⟨"1".toList, "www".toList, "600000000000".toList, "A".toList, "1.2.3.4".toList, [],
          []⟩], 2), true),
        [(⟨"user".toList, "dns-rows-list".toList, "GetRecords".toList,
            .domain "example.com".toList⟩,
          .body (some ⟨1000, some (.valid [])⟩)),
          (⟨"user".toList, "dns-row-add".toList, "AppendRecords".toList,
            .record ⟨"example.com".toList, "www".toList, "600000000000".toList, "A".toList,
              "1.2.3.4".toList⟩⟩,
          .body (some ⟨1000, some (.valid [])⟩))]⟩ ∧
    Provider.SetRecords ipv4Lib flakyZone ⟨"user".toList, "secret".toList⟩
        (([⟨"1".toList, "www".toList, "600000000000".toList, "A".toList, "1.2.3.4".toList, [],
          []⟩], 2), true)
        "example.com".toList [.Address "www".toList (1, 2, 3, 4) (seconds 600)] =
      ⟨.ok [.Address "www".toList (1, 2, 3, 4) (seconds 600)],
        (([⟨"1".toList, "www".toList, "600000000000".toList, "A".toList, "1.2.3.4".toList, [],
            []⟩,
          ⟨"2".toList, "www".toList, "600000000000".toList, "A".toList, "1.2.3.4".toList, [],
            []⟩], 3), true),
        [(⟨"user".toList, "dns-rows-list".toList, "GetRecords".toList,
            .domain "example.com".toList⟩,
          .body (some ⟨2000, none⟩)),
          (⟨"user".toList, "dns-row-add".toList, "AppendRecords".toList,
            .record ⟨"example.com".toList, "www".toList, "600000000000".toList, "A".toList,
              "1.2.3.4".toList⟩⟩,
          .body (some ⟨1000, some (.valid [])⟩))]⟩ := by
  decide

/-- Against a store that answers its listings (`IsStore`), if SetRecords for a record
list ends without error and every create it sent was answered with code 1000, then
SetRecords for the same list on the state it left sends, besides the list-rows request,
update requests only. -/
theorem SetRecords_twice_of_isStore {σ : Type} (L : Lib) (T : Transport σ) (p : Provider) (s : σ)
    (zone : Str) (records : List (Record L.Addr)) (rows : σ → List rowItem)
    (applied : List (Record L.Addr)) (hstore : IsStore T rows)
    (hfirst : (Provider.SetRecords L T p s zone records).result = .ok applied)
    (haccepted : ∀ ex ∈ (Provider.SetRecords L T p s zone records).trace,
      ex.1.Command = Command.AppendRecords → replyCode ex.2 = some 1000) :
    ((Provider.SetRecords L T p (Provider.SetRecords L T p s zone records).state zone
        records).trace.all fun ex =>
      decide (ex.1.Command = Command.GetRecords ∨ ex.1.Command = Command.UpdateRecords)) =
      true := by
  have hcred : p.Username ≠ [] ∧ p.Password ≠ [] := by
    by_contra hno
    have hor : p.Username = [] ∨ p.Password = [] := by
      by_cases hu : p.Username = []
      · exact Or.inl hu
      · by_cases hp : p.Password = []
        · exact Or.inr hp
        · exact absurd ⟨hu, hp⟩ hno
    have := (SetRecords_no_credentials L T p s zone records hor)
    rw [this] at hfirst
    cases hfirst
  -- the state the first run leaves holds a row for the key of every record
  have hkeys : ∀ r ∈ records,
      ∃ row ∈ rows (Provider.SetRecords L T p s zone records).state,
        row.Name = (encoded L r zone).name ∧ row.Rdtype = (encoded L r zone).type := by
    rw [SetRecords_eq L T p s zone records hcred] at hfirst haccepted ⊢
    cases hv : replyOutcome (T.Do s (listRequest p zone)).1 true with
    | error e => rw [hv] at hfirst; cases hfirst
    | panic => exact absurd hv (replyOutcome_not_panic _ _)
    | ok v =>
      rw [hv] at hfirst haccepted
      simp only at hfirst haccepted ⊢
      have hsnap : v.2 = rows s := hstore.list s (listRequest p zone) zone v rfl hv
      obtain ⟨hkeep, hrec⟩ := setLoop_stores L T p zone hcred rows hstore v.2 records []
        (T.Do s (listRequest p zone)).2 ⟨applied, hfirst⟩
        (fun ex hex => haccepted ex (List.mem_cons_of_mem _ hex))
      intro r hr
      rcases hrec r hr with ⟨row, hrow, hn, ht⟩ | hfound
      · rw [hsnap] at hrow
        obtain ⟨k1, hk1, hn1, ht1⟩ := hstore.keep s (listRequest p zone)
          (fun z row_id => by simp [listRequest]) row hrow
        obtain ⟨k2, hk2, hn2, ht2⟩ := hkeep k1 hk1
        exact ⟨k2, hk2, (hn2.trans hn1).trans hn, (ht2.trans ht1).trans ht⟩
      · exact hfound
  -- hence the second run finds an occupant for every record
  rw [List.all_eq_true]
  intro ex hex
  rw [decide_eq_true_eq]
  rw [SetRecords_eq L T p _ zone records hcred] at hex
  generalize (Provider.SetRecords L T p s zone records).state = s1 at hex hkeys
  cases hv : replyOutcome (T.Do s1 (listRequest p zone)).1 true with
  | error e =>
    rw [hv] at hex
    rw [List.mem_singleton.mp hex]
    exact Or.inl rfl
  | panic => exact absurd hv (replyOutcome_not_panic _ _)
  | ok v =>
    rw [hv] at hex
    simp only at hex
    rcases List.mem_cons.mp hex with rfl | hex'
    · exact Or.inl rfl
    · right
      have hsnap : v.2 = rows s1 := hstore.list s1 (listRequest p zone) zone v rfl hv
      exact setLoop_only_updates L T p zone hcred v.2 records [] _
        (fun r hr => by rw [hsnap]; exact hkeys r hr) ex hex'

/-- Two records set twice on an empty in-memory zone: the second run sends the listing
and two updates. -/
theorem SetRecords_twice_memoryZone :
    ((Provider.SetRecords ipv4Lib memoryZone ⟨"user".toList, "secret".toList⟩
        (Provider.SetRecords ipv4Lib memoryZone ⟨"user".toList, "secret".toList⟩ ([], 1)
          "example.com".toList
          [.Address "www".toList (1, 2, 3, 4) (seconds 600),
            .TXT "@".toList "v=spf1 -all".toList (seconds 3600)]).state
        "example.com".toList
        [.Address "www".toList (1, 2, 3, 4) (seconds 600),
          .TXT "@".toList "v=spf1 -all".toList (seconds 3600)]).trace.all fun ex =>
      decide (ex.1.Command = Command.GetRecords ∨ ex.1.Command = Command.UpdateRecords)) =
      true :=
  SetRecords_twice_of_isStore ipv4Lib memoryZone ⟨"user".toList, "secret".toList⟩ ([], 1)
    "example.com".toList
    [.Address "www".toList (1, 2, 3, 4) (seconds 600),
      .TXT "@".toList "v=spf1 -all".toList (seconds 3600)]
    (fun s => s.1)
    [.Address "www".toList (1, 2, 3, 4) (seconds 600),
      .TXT "@".toList "v=spf1 -all".toList (seconds 3600)]
    memoryZone_isStore (by decide) (by decide)

/-- C17: with an empty user name or an empty password, each of GetRecords, AppendRecords
(on a non-empty record list), SetRecords and DeleteRecords returns the credentials
error, performs no exchange with the transport and leaves the API's state alone. -/
theorem C17_missing_credentials {σ : Type} (L : Lib) (T : Transport σ) (p : Provider) (s : σ)
    (zone : Str) (records : List (Record L.Addr)) (h : p.Username = [] ∨ p.Password = []) :
    Provider.GetRecords L T p s zone = ⟨.error .credentials, s, []⟩ ∧
    (records ≠ [] →
      Provider.AppendRecords L T p s zone records = ⟨.error .credentials, s, []⟩) ∧
    Provider.SetRecords L T p s zone records = ⟨.error .credentials, s, []⟩ ∧
    Provider.DeleteRecords L T p s zone records = ⟨.error .credentials, s, []⟩ := by
  refine ⟨?_, ?_, ?_, ?_⟩
  · simp [Provider.GetRecords, roundTrip_credentials T p s _ _ _ _ h]
  · intro hne
    cases records with
    | nil => exact absurd rfl hne
    | cons r rest =>
      simp [Provider.AppendRecords, appendLoop, toWedosDNSRecord_encoded,
        roundTrip_credentials T p s _ _ _ _ h]
  · simp [Provider.SetRecords, roundTrip_credentials T p s _ _ _ _ h]
  · simp [Provider.DeleteRecords, roundTrip_credentials T p s _ _ _ _ h]

/-- C17, witness: a provider without password, in front of a zone holding one row. -/
theorem C17_missing_credentials_witness :
    Provider.GetRecords ipv4Lib memoryZone ⟨"user".toList, []⟩
        ([⟨"1".toList, "www".toList, "300".toList, "A".toList, "1.2.3.4".toList, [], []⟩], 2)
        "example.com".toList =
      ⟨.error .credentials,
        ([⟨"1".toList, "www".toList, "300".toList, "A".toList, "1.2.3.4".toList, [], []⟩], 2),
        []⟩ ∧
    Provider.AppendRecords ipv4Lib memoryZone ⟨"user".toList, []⟩
        ([⟨"1".toList, "www".toList, "300".toList, "A".toList, "1.2.3.4".toList, [], []⟩], 2)
        "example.com".toList [.TXT "@".toList "v=spf1 -all".toList (seconds 3600)] =
      ⟨.error .credentials,
        ([⟨"1".toList, "www".toList, "300".toList, "A".toList, "1.2.3.4".toList, [], []⟩], 2),
        []⟩ :=
  have h := C17_missing_credentials ipv4Lib memoryZone ⟨"user".toList, []⟩
    ([⟨"1".toList, "www".toList, "300".toList, "A".toList, "1.2.3.4".toList, [], []⟩], 2)
    "example.com".toList [.TXT "@".toList "v=spf1 -all".toList (seconds 3600)] (Or.inr rfl)
  ⟨h.1, h.2.1 (by simp)⟩

/-- C18, counterexample: the remote row named ` www` (with a leading blank) of type A
decodes to the address record `www`; its name, normalised, is the record's name and
the types are equal; yet SetRecords for that record on the same snapshot sends a
create, not an update. -/
theorem C18_counterexample :
    toLibDNSRecord ipv4Lib
        ⟨"1".toList, " www".toList, "300".toList, "A".toList, "1.2.3.4".toList, [], []⟩ =
      .ok (.Address "www".toList (1, 2, 3, 4) (seconds 300)) ∧
    normalizeNameFromAPI " www".toList = normalizeNameFromAPI "www".toList ∧
    (Provider.SetRecords ipv4Lib memoryZone ⟨"user".toList, "secret".toList⟩
        ([⟨"1".toList, " www".toList, "300".toList, "A".toList, "1.2.3.4".toList, [], []⟩], 2)
        "example.com".toList
        [.Address "www".toList (1, 2, 3, 4) (seconds 300)]).trace.map (fun ex => ex.1) =
      [⟨"user".toList, "dns-rows-list".toList, "GetRecords".toList,
          .domain "example.com".toList⟩,
        ⟨"user".toList, "dns-row-add".toList, "AppendRecords".toList,
          .record ⟨"example.com".toList, "www".toList, "300000000000".toList, "A".toList,
            "1.2.3.4".toList⟩⟩] := by
  decide

/-- C18, as amended: in SetRecords a name and type are occupied exactly when some row of
the snapshot has that name and that type as they stand, without normalisation of the
remote side; and a fetched row that decodes to a record `r`, is not of type SRV, has a
name without white space at its ends other than `@`, and has as type tag the very tag
the encoder emits for `r`, is matched: SetRecords for `r` on that snapshot sends the
listing and one update, of a row with the same name and type. -/
theorem C18_row_key_exact {σ : Type} (L : Lib) (T : Transport σ) (p : Provider) (s : σ)
    (zone : Str) (row : rowItem) (r : Record L.Addr)
    (hcred : p.Username ≠ [] ∧ p.Password ≠ [])
    (hrow : row ∈ replyRows (T.Do s (listRequest p zone)).1)
    (hdec : toLibDNSRecord L row = .ok r) (hsrv : recordType L row ≠ SRVRecord)
    (hname : TrimSpace row.Name = row.Name) (hat : row.Name ≠ "@".toList)
    (htype : row.Rdtype = (variantTypeData L r).1) :
    (∀ (rows : List rowItem) (name type : Str),
      (∃ remote, (remoteMap rows).lookup ⟨name, type, []⟩ = some remote) ↔
        ∃ x ∈ rows, x.Name = name ∧ x.Rdtype = type) ∧
    ∃ remote ∈ replyRows (T.Do s (listRequest p zone)).1,
      remote.Name = row.Name ∧ remote.Rdtype = row.Rdtype ∧
      (Provider.SetRecords L T p s zone [r]).trace.map (fun ex => ex.1) =
        [listRequest p zone,
          updateRequest p zone remote.ID (encoded L r zone).ttl (encoded L r zone).rdata] := by
  refine ⟨fun rows name type => by rw [remoteMap_lookup]; exact occupant_isSome_iff rows name type,
    ?_⟩
  cases hv : replyOutcome (T.Do s (listRequest p zone)).1 true with
  | error e => simp [replyRows, hv] at hrow
  | panic => exact absurd hv (replyOutcome_not_panic _ _)
  | ok v =>
    rw [replyRows_of_ok _ v hv] at hrow ⊢
    have hen : (encoded L r zone).name = row.Name := by
      simp only [encoded]
      rw [toLibDNSRecord_rrName L row r hdec hsrv]
      exact encoded_name_of_decoded row.Name hname hat
    have het : (encoded L r zone).type = row.Rdtype := htype.symm
    obtain ⟨remote, hremote⟩ := (occupant_isSome_iff v.2 (encoded L r zone).name
      (encoded L r zone).type).mpr ⟨row, hrow, hen.symm, het.symm⟩
    obtain ⟨hmem, hn, ht⟩ := occupant_some_mem _ _ _ _ hremote
    exact ⟨remote, hmem, hn.trans hen, ht.trans het,
      SetRecords_single_update L T p s zone r hcred v hv remote hremote⟩

/-- C18, witness: the row `www` of type A in an in-memory zone. -/
theorem C18_row_key_exact_witness :
    (∀ (rows : List rowItem) (name type : Str),
      (∃ remote, (remoteMap rows).lookup ⟨name, type, []⟩ = some remote) ↔
        ∃ x ∈ rows, x.Name = name ∧ x.Rdtype = type) ∧
    ∃ remote ∈ [(⟨"1".toList, "www".toList, "300".toList, "A".toList, "1.2.3.4".toList, [],
        []⟩ : rowItem)],
      remote.Name = "www".toList ∧ remote.Rdtype = "A".toList ∧
      (Provider.SetRecords ipv4Lib memoryZone ⟨"user".toList, "secret".toList⟩
          ([⟨"1".toList, "www".toList, "300".toList, "A".toList, "1.2.3.4".toList, [], []⟩], 2)
          "example.com".toList
          [.Address "www".toList (1, 2, 3, 4) (seconds 300)]).trace.map (fun ex => ex.1) =
        [⟨"user".toList, "dns-rows-list".toList, "GetRecords".toList,
            .domain "example.com".toList⟩,
          updateRequest ⟨"user".toList, "secret".toList⟩ "example.com".toList remote.ID
            "300000000000".toList "1.2.3.4".toList] :=
  C18_row_key_exact ipv4Lib memoryZone ⟨"user".toList, "secret".toList⟩
    ([⟨"1".toList, "www".toList, "300".toList, "A".toList, "1.2.3.4".toList, [], []⟩], 2)
    "example.com".toList
    ⟨"1".toList, "www".toList, "300".toList, "A".toList, "1.2.3.4".toList, [], []⟩
    (.Address "www".toList (1, 2, 3, 4) (seconds 300))
    (by decide) (by decide) (by decide) (by decide) (by decide) (by decide) (by decide)

/-- C19, counterexample: an SRV row with a numeric ttl whose name `._tcp.voice` has
exactly three dot-separated components, the first of them empty, makes
`toLibDNSRecord` panic on the slice `service[0][1:]`. -/
theorem C19_counterexample :
    Split "._tcp.voice".toList '.' = [[], "_tcp".toList, "voice".toList] ∧
    toLibDNSRecord ipv4Lib
        ⟨"1".toList, "._tcp.voice".toList, "300".toList, "SRV".toList,
          "10 20 5060 sip.example.com".toList, [], []⟩ = .panic := by
  decide

/-- C19, as amended: for an SRV row with a numeric ttl whose name has three
dot-separated components (or more), the first two of them non-empty, `toLibDNSRecord`
does not panic: it returns a record or an error. -/
theorem C19_srv_no_panic (L : Lib) (row : rowItem) (ttl : Int) (s0 s1 n : Str)
    (more : List Str)
    (htype : recordType L row = SRVRecord) (httl : Atoi row.TTL = some ttl)
    (hname : Split row.Name '.' = s0 :: s1 :: n :: more) (h0 : s0 ≠ []) (h1 : s1 ≠ []) :
    (∃ rec, toLibDNSRecord L row = .ok rec) ∨ ∃ e, toLibDNSRecord L row = .error e := by
  rw [toLibDNSRecord_srv L row ttl httl htype]
  cases s0 with
  | nil => exact absurd rfl h0
  | cons c0 s =>
    cases s1 with
    | nil => exact absurd rfl h1
    | cons c1 p =>
      by_cases hlen : (Split row.Rdata ' ').length = 4
      · rcases hd : Split row.Rdata ' ' with
          _ | ⟨p0, _ | ⟨p1, _ | ⟨p2, _ | ⟨p3, _ | ⟨p4, rest⟩⟩⟩⟩⟩
        all_goals rw [hd] at hlen
        all_goals simp at hlen
        cases ha : Atoi p0 with
        | none =>
          exact Or.inr ⟨.srvNumber, by
            simp [srvCase, hname, hd, index, sliceFrom, Outcome.bind, ha]⟩
        | some a =>
          cases hb : Atoi p1 with
          | none =>
            exact Or.inr ⟨.srvNumber, by
              simp [srvCase, hname, hd, index, sliceFrom, Outcome.bind, ha, hb]⟩
          | some b =>
            cases hc : Atoi p2 with
            | none =>
              exact Or.inr ⟨.srvNumber, by
                simp [srvCase, hname, hd, index, sliceFrom, Outcome.bind, ha, hb, hc]⟩
            | some c =>
              exact Or.inl ⟨_, srvCase_ok L row ttl c0 c1 s p n more p0 p1 p2 p3 a b c
                hname hd ha hb hc⟩
      · exact Or.inr ⟨.srvFields, by
          simp [srvCase, hname, index, sliceFrom, Outcome.bind, hlen]⟩

/-- C19, witness: the row `_sip._tcp.voice` with data whose port is not a number. -/
theorem C19_srv_no_panic_witness :
    (∃ rec, toLibDNSRecord ipv4Lib
        ⟨"1".toList, "_sip._tcp.voice".toList, "300".toList, "SRV".toList,
          "10 20 http sip.example.com".toList, [], []⟩ = .ok rec) ∨
      ∃ e, toLibDNSRecord ipv4Lib
        ⟨"1".toList, "_sip._tcp.voice".toList, "300".toList, "SRV".toList,
          "10 20 http sip.example.com".toList, [], []⟩ = .error e :=
  C19_srv_no_panic ipv4Lib _ 300 "_sip".toList "_tcp".toList "voice".toList []
    (by decide) (by decide) (by decide) (by decide) (by decide)

/-- C20, counterexample: the address record `www` whose IP is the zero `netip.Addr` is
encoded with the data `invalid IP`, and the row so produced, with the ttl `300`, does
not decode: `toLibDNSRecord` returns the address error. -/
theorem C20_counterexample :
    toWedosDNSRecord ipv4ZeroLib (.Address "www".toList none 0) "example.com".toList =
      .ok ⟨"example.com".toList, "www".toList, "0".toList, "A".toList,
        "invalid IP".toList⟩ ∧
    toLibDNSRecord ipv4ZeroLib
        ⟨"1".toList, "www".toList, "300".toList, "A".toList, "invalid IP".toList, [], []⟩ =
      .error .addr := by
  decide

/-- C20, as amended: for an Address, CNAME or TXT record that is `ContentReady`, every
row carrying the emitted name, type and rdata together with any ttl `Atoi` accepts
decodes to the same record, up to the TTL: same variant, same name, same IP, target
or text. -/
theorem C20_content_round_trip (L : Lib) (r : Record L.Addr) (zone : Str)
    (hU : ∀ t ∈ [ARecord, AAAARecord, CNAMERecord, TXTRecord], L.ToUpper t = t)
    (hr : ContentReady L r) :
    ∃ w, toWedosDNSRecord L r zone = .ok w ∧
      ∀ (row : rowItem) (n : Int), row.Name = w.name → row.Rdtype = w.type →
        row.Rdata = w.rdata → Atoi row.TTL = some n →
        toLibDNSRecord L row = .ok (r.setTTL (secondsToDuration n)) := by
  refine ⟨_, toWedosDNSRecord_eq L r zone, ?_⟩
  intro row n hname htype hdata hA
  simp only at hname htype hdata
  cases r with
  | Address nm ip t =>
    obtain ⟨hn, hip⟩ := hr
    have hty : recordType L row = ARecord ∨ recordType L row = AAAARecord := by
      by_cases h6 : L.Is6 ip = true
      · right
        exact recordType_of_tag L row _ (by simpa [variantTypeData, h6] using htype)
          (by decide) (hU _ (by simp))
      · left
        exact recordType_of_tag L row _ (by simpa [variantTypeData, h6] using htype)
          (by decide) (hU _ (by simp))
    have hd : row.Rdata = L.addrString ip := hdata
    rw [toLibDNSRecord_addr L row _ hA hty, hd, hip, hname]
    exact congrArg (fun x => Outcome.ok (Record.Address x ip (secondsToDuration n)))
      (name_round_trip nm hn)
  | CNAME nm target t =>
    obtain ⟨hn, htg⟩ := hr
    have hty : recordType L row = CNAMERecord :=
      recordType_of_tag L row _ htype (by decide) (hU _ (by simp))
    have hd : row.Rdata = target := hdata
    rw [toLibDNSRecord_cname L row _ hA hty, hd, htg, hname]
    exact congrArg (fun x => Outcome.ok (Record.CNAME x target (secondsToDuration n)))
      (name_round_trip nm hn)
  | TXT nm text t =>
    have hn : CleanName nm := hr
    have hty : recordType L row = TXTRecord :=
      recordType_of_tag L row _ htype (by decide) (hU _ (by simp))
    have hd : row.Rdata = text := hdata
    rw [toLibDNSRecord_txt L row _ hA hty, hd, hname]
    exact congrArg (fun x => Outcome.ok (Record.TXT x text (secondsToDuration n)))
      (name_round_trip nm hn)
  | MX _ _ _ _ => exact absurd hr id
  | NS _ _ _ => exact absurd hr id
  | SRV _ _ _ _ _ _ _ _ => exact absurd hr id
  | RR _ => exact absurd hr id
  | other _ => exact absurd hr id

/-- C20, witness: a TXT record at the apex whose text has blanks at both ends, read
back with the ttl `300`. -/
theorem C20_content_round_trip_witness :
    ∃ w, toWedosDNSRecord ipv4Lib (.TXT "@".toList " v=spf1 -all ".toList (seconds 600))
        "example.com".toList = .ok w ∧
      ∀ (row : rowItem) (n : Int), row.Name = w.name → row.Rdtype = w.type →
        row.Rdata = w.rdata → Atoi row.TTL = some n →
        toLibDNSRecord ipv4Lib row =
          .ok (.TXT "@".toList " v=spf1 -all ".toList (secondsToDuration n)) :=
  C20_content_round_trip ipv4Lib (.TXT "@".toList " v=spf1 -all ".toList (seconds 600))
    "example.com".toList (by decide) (show CleanName _ from ⟨by decide, by decide⟩)

end Wedos
